import Mathlib

/-!
Shallow embedding of the C++ shallow-water solver (`cpp/src/mesh.cpp`,
`cpp/src/solver.cpp`, `cpp/include/types.hpp`, `cpp/include/mesh.hpp`,
`cpp/include/solver.hpp`) into Lean 4, together with proofs and refutations
of the specification claims about it.

`double` is modelled by `ℝ` (exact real arithmetic: the idealised semantics
the specification itself speaks about), `std::vector` by `List`,
`std::unordered_map` by an association list, thrown exceptions by `Except`.
Source function and field names are kept wherever Lean allows.
-/

namespace SWE

/-- `swe::Point` from `types.hpp`: a 2D point with arithmetic helpers. -/
structure Point where
  x : ℝ
  y : ℝ


namespace Point

@[ext] theorem ext2 {p q : Point} (hx : p.x = q.x) (hy : p.y = q.y) : p = q := by
  cases p; cases q; simp_all

/-- `Point::operator+`. -/
noncomputable instance : Add Point := ⟨fun a b => ⟨a.x + b.x, a.y + b.y⟩⟩

/-- `Point::operator-`. -/
noncomputable instance : Sub Point := ⟨fun a b => ⟨a.x - b.x, a.y - b.y⟩⟩

/-- Negation of a point (used to state "negating the normal"). -/
noncomputable instance : Neg Point := ⟨fun a => ⟨-a.x, -a.y⟩⟩

/-- `Point::operator*` (scalar on the right, as in the C++ signature). -/
noncomputable def smul (a : Point) (s : ℝ) : Point := ⟨a.x * s, a.y * s⟩

/-- `Point::operator/` (scalar). -/
noncomputable def sdiv (a : Point) (s : ℝ) : Point := ⟨a.x / s, a.y / s⟩

/-- `Point::dot`. -/
noncomputable def dot (a b : Point) : ℝ := a.x * b.x + a.y * b.y

/-- `Point::norm`. -/
noncomputable def norm (a : Point) : ℝ := Real.sqrt (a.x * a.x + a.y * a.y)

/-- `Point::cross` (2D scalar cross product). -/
noncomputable def cross (a b : Point) : ℝ := a.x * b.y - a.y * b.x

@[simp] theorem add_x (a b : Point) : (a + b).x = a.x + b.x := rfl
@[simp] theorem add_y (a b : Point) : (a + b).y = a.y + b.y := rfl
@[simp] theorem sub_x (a b : Point) : (a - b).x = a.x - b.x := rfl
@[simp] theorem sub_y (a b : Point) : (a - b).y = a.y - b.y := rfl
@[simp] theorem neg_x (a : Point) : (-a).x = -a.x := rfl
@[simp] theorem neg_y (a : Point) : (-a).y = -a.y := rfl
@[simp] theorem smul_x (a : Point) (s : ℝ) : (a.smul s).x = a.x * s := rfl
@[simp] theorem smul_y (a : Point) (s : ℝ) : (a.smul s).y = a.y * s := rfl
@[simp] theorem sdiv_x (a : Point) (s : ℝ) : (a.sdiv s).x = a.x / s := rfl
@[simp] theorem sdiv_y (a : Point) (s : ℝ) : (a.sdiv s).y = a.y / s := rfl

end Point

/-- `swe::State` from `types.hpp`: depth and the two momentum densities. -/
structure State where
  h : ℝ
  hu : ℝ
  hv : ℝ


namespace State

@[ext] theorem ext3 {a b : State} (h1 : a.h = b.h) (h2 : a.hu = b.hu)
    (h3 : a.hv = b.hv) : a = b := by
  cases a; cases b; simp_all

/-- `State::State()`: default-constructed state is all zeroes. -/
noncomputable instance : Inhabited State := ⟨⟨0, 0, 0⟩⟩

/-- `State::operator+`. -/
noncomputable instance : Add State := ⟨fun a b => ⟨a.h + b.h, a.hu + b.hu, a.hv + b.hv⟩⟩

/-- `State::operator-`. -/
noncomputable instance : Sub State := ⟨fun a b => ⟨a.h - b.h, a.hu - b.hu, a.hv - b.hv⟩⟩

/-- Componentwise negation (used to state flux antisymmetry). -/
noncomputable instance : Neg State := ⟨fun a => ⟨-a.h, -a.hu, -a.hv⟩⟩

/-- `State::operator*` (scalar). -/
noncomputable def smul (a : State) (s : ℝ) : State := ⟨a.h * s, a.hu * s, a.hv * s⟩

/-- `State::operator/` (scalar). -/
noncomputable def sdiv (a : State) (s : ℝ) : State := ⟨a.h / s, a.hu / s, a.hv / s⟩

@[simp] theorem default_h : (default : State).h = 0 := rfl
@[simp] theorem default_hu : (default : State).hu = 0 := rfl
@[simp] theorem default_hv : (default : State).hv = 0 := rfl
@[simp] theorem add_h (a b : State) : (a + b).h = a.h + b.h := rfl
@[simp] theorem add_hu (a b : State) : (a + b).hu = a.hu + b.hu := rfl
@[simp] theorem add_hv (a b : State) : (a + b).hv = a.hv + b.hv := rfl
@[simp] theorem sub_h (a b : State) : (a - b).h = a.h - b.h := rfl
@[simp] theorem sub_hu (a b : State) : (a - b).hu = a.hu - b.hu := rfl
@[simp] theorem sub_hv (a b : State) : (a - b).hv = a.hv - b.hv := rfl
@[simp] theorem neg_h (a : State) : (-a).h = -a.h := rfl
@[simp] theorem neg_hu (a : State) : (-a).hu = -a.hu := rfl
@[simp] theorem neg_hv (a : State) : (-a).hv = -a.hv := rfl
@[simp] theorem smul_h (a : State) (s : ℝ) : (a.smul s).h = a.h * s := rfl
@[simp] theorem smul_hu (a : State) (s : ℝ) : (a.smul s).hu = a.hu * s := rfl
@[simp] theorem smul_hv (a : State) (s : ℝ) : (a.smul s).hv = a.hv * s := rfl
@[simp] theorem sdiv_h (a : State) (s : ℝ) : (a.sdiv s).h = a.h / s := rfl
@[simp] theorem sdiv_hu (a : State) (s : ℝ) : (a.sdiv s).hu = a.hu / s := rfl
@[simp] theorem sdiv_hv (a : State) (s : ℝ) : (a.sdiv s).hv = a.hv / s := rfl

end State

/-- `swe::SolverParameters` from `solver.hpp`, with the C++ default values. -/
structure SolverParameters where
  gravity : ℝ := 9.81
  cfl : ℝ := 0.5
  friction : ℝ := 0.0
  min_depth : ℝ := 1e-6
  dry_tolerance : ℝ := 1e-8

/-- `Solver::compute_wave_speeds` (`solver.cpp`): HLL wave-speed estimates,
returned as the pair `(sl, sr)`. -/
noncomputable def compute_wave_speeds (params : SolverParameters)
    (left right : State) (normal : Point) (gravity : ℝ) : ℝ × ℝ :=
  let ul := if left.h > params.dry_tolerance then
      (left.hu * normal.x + left.hv * normal.y) / left.h else 0
  let ur := if right.h > params.dry_tolerance then
      (right.hu * normal.x + right.hv * normal.y) / right.h else 0
  let cl := Real.sqrt (gravity * max left.h params.min_depth)
  let cr := Real.sqrt (gravity * max right.h params.min_depth)
  (min (ul - cl) (ur - cr), max (ul + cl) (ur + cr))

/-- The local `flux_left` / `flux_right` block of `Solver::compute_hll_flux`:
the physical flux of a state in the direction `normal`, with `un` the
dry-guarded normal velocity computed there. -/
noncomputable def physical_flux (params : SolverParameters) (s : State)
    (normal : Point) (gravity : ℝ) : State :=
  let un := if s.h > params.dry_tolerance then
      (s.hu * normal.x + s.hv * normal.y) / s.h else 0
  { h := s.hu * normal.x + s.hv * normal.y
    hu := s.hu * un + 0.5 * gravity * s.h * s.h * normal.x
    hv := s.hv * un + 0.5 * gravity * s.h * s.h * normal.y }

/-- `Solver::compute_hll_flux` (`solver.cpp`): HLL approximate Riemann flux.
Note the source has no dry-state early return; it only zeroes the velocities
of dry states. -/
noncomputable def compute_hll_flux (params : SolverParameters)
    (left right : State) (normal : Point) (gravity : ℝ) : State :=
  let ws := compute_wave_speeds params left right normal gravity
  let sl := ws.1
  let sr := ws.2
  let flux_left := physical_flux params left normal gravity
  let flux_right := physical_flux params right normal gravity
  if sl ≥ 0 then flux_left
  else if sr ≤ 0 then flux_right
  else
    ((flux_right.smul sl - flux_left.smul sr) +
      (left - right).smul (sl * sr)).sdiv (sl - sr)

/-- `swe::Triangle` (`types.hpp`): three node indices plus derived geometry.
The default constructor zeroes everything. -/
structure Triangle where
  n0 : ℕ
  n1 : ℕ
  n2 : ℕ
  centroid : Point := ⟨0, 0⟩
  area : ℝ := 0

noncomputable instance : Inhabited Triangle := ⟨{ n0 := 0, n1 := 0, n2 := 0 }⟩

/-- `swe::Edge` (`types.hpp`): the canonical node pair, the adjacent triangle
indices (`-1` marks no neighbour), and derived geometry. -/
structure Edge where
  nodes : ℕ × ℕ
  tri0 : ℤ := -1
  tri1 : ℤ := -1
  midpoint : Point := ⟨0, 0⟩
  length : ℝ := 0
  normal : Point := ⟨0, 0⟩

noncomputable instance : Inhabited Edge := ⟨{ nodes := (0, 0) }⟩

/-- `swe::Mesh` (`mesh.hpp`): nodes, triangles and derived edges.  The
node→triangle / node→edge adjacency maps are not consumed by any claim and
are omitted. -/
structure Mesh where
  nodes : List Point
  triangles : List Triangle
  edges : List Edge

/-- `Mesh::edge_key`: the canonical (min,max) node pair used to deduplicate
edges (the C++ packs it into a `uint64_t`; the pair itself is the key). -/
def edge_key (n1 n2 : ℕ) : ℕ × ℕ := (min n1 n2, max n1 n2)

/-- Lookup in the model of `edge_map_` (`std::unordered_map::find`). -/
def mapLookup : List ((ℕ × ℕ) × ℕ) → ℕ × ℕ → Option ℕ
  | [], _ => none
  | (k, v) :: rest, key => if k = key then some v else mapLookup rest key

/-- The mutable state of `Mesh::build_connectivity`: the edge list being
grown and the key→edge-id map. -/
structure ConnState where
  edges : List Edge
  emap : List ((ℕ × ℕ) × ℕ)

/-- `Mesh::find_or_create_edge` (`mesh.cpp`): on a map hit, overwrite the
edge's `triangles[1]` with the current triangle; on a miss, append a new
edge holding the canonical node pair, `triangles[0] = tri_id`,
`triangles[1] = -1`. -/
noncomputable def find_or_create_edge (st : ConnState) (n1 n2 : ℕ)
    (tri_id : ℕ) : ConnState :=
  match mapLookup st.emap (edge_key n1 n2) with
  | some edge_id =>
      let e := st.edges.getD edge_id default
      { st with edges := st.edges.set edge_id { e with tri1 := (tri_id : ℤ) } }
  | none =>
      let e : Edge := { nodes := (min n1 n2, max n1 n2), tri0 := (tri_id : ℤ), tri1 := -1 }
      { edges := st.edges ++ [e], emap := (edge_key n1 n2, st.edges.length) :: st.emap }

/-- The three node pairs `(nodes[i], nodes[(i+1)%3])` of a triangle, in the
order the `build_connectivity` inner loop visits them. -/
def sidePairs (t : Triangle) : List (ℕ × ℕ) :=
  [(t.n0, t.n1), (t.n1, t.n2), (t.n2, t.n0)]

/-- `Mesh::build_connectivity` (`mesh.cpp`), restricted to the edge
discovery it performs (the node adjacency maps are unused by the claims). -/
noncomputable def build_connectivity (triangles : List Triangle) : ConnState :=
  triangles.enum.foldl (fun st p =>
    (sidePairs p.2).foldl (fun st2 q => find_or_create_edge st2 q.1 q.2 p.1) st)
    ⟨[], []⟩

/-- `Mesh::compute_triangle_geometry` (`mesh.cpp`). -/
noncomputable def compute_triangle_geometry (nodes : List Point)
    (tri : Triangle) : Triangle :=
  let p0 := nodes.getD tri.n0 ⟨0, 0⟩
  let p1 := nodes.getD tri.n1 ⟨0, 0⟩
  let p2 := nodes.getD tri.n2 ⟨0, 0⟩
  let v1 := p1 - p0
  let v2 := p2 - p0
  { tri with centroid := (p0 + p1 + p2).sdiv 3
             area := |v1.cross v2| * 0.5 }

/-- `Mesh::compute_edge_geometry` (`mesh.cpp`): midpoint, length, and the
unit normal obtained by rotating the node-order direction vector. -/
noncomputable def compute_edge_geometry (nodes : List Point) (e : Edge) : Edge :=
  let p0 := nodes.getD e.nodes.1 ⟨0, 0⟩
  let p1 := nodes.getD e.nodes.2 ⟨0, 0⟩
  let diff := p1 - p0
  { e with midpoint := (p0 + p1).smul 0.5
           length := diff.norm
           normal := (Point.mk (-diff.y) diff.x).sdiv diff.norm }

/-- `Mesh::compute_geometry` (`mesh.cpp`). -/
noncomputable def compute_geometry (m : Mesh) : Mesh :=
  { m with triangles := m.triangles.map (compute_triangle_geometry m.nodes)
           edges := m.edges.map (compute_edge_geometry m.nodes) }

/-- `Mesh::create_rectangular` (`mesh.cpp`): uniform `(nx+1)×(ny+1)` node
grid, two triangles per quad, then connectivity and geometry. -/
noncomputable def create_rectangular (width height : ℝ) (nx ny : ℕ) : Mesh :=
  let dx := width / (nx : ℝ)
  let dy := height / (ny : ℝ)
  let nodes := (List.range (ny+1)).flatMap (fun j =>
    (List.range (nx+1)).map (fun (i : ℕ) =>
      Point.mk ((i : ℝ) * dx) ((j : ℝ) * dy)))
  let triangles := (List.range ny).flatMap (fun j =>
    (List.range nx).flatMap (fun i =>
      let n0 := j * (nx+1) + i
      [{ n0 := n0, n1 := n0 + 1, n2 := n0 + (nx+1) },
       { n0 := n0 + 1, n1 := n0 + (nx+1) + 1, n2 := n0 + (nx+1) }]))
  compute_geometry
    { nodes := nodes, triangles := triangles
      edges := (build_connectivity triangles).edges }

/-- `Mesh::is_boundary_edge`. -/
def Mesh.is_boundary_edge (m : Mesh) (edge_id : ℕ) : Prop :=
  (m.edges.getD edge_id default).tri1 = -1

/-- `Mesh::min_edge_length`. -/
noncomputable def min_edge_length (m : Mesh) : ℝ :=
  match m.edges with
  | [] => 0
  | e :: rest => rest.foldl (fun acc e2 => min acc e2.length) e.length

/-- `swe::BoundaryType` (`types.hpp`). -/
inductive BoundaryType
  | Wall
  | Open
  | Inflow
  | Outflow
deriving DecidableEq

/-- `swe::BoundaryCondition` (`types.hpp`); default-constructed is `Wall`. -/
structure BoundaryCondition where
  type : BoundaryType := BoundaryType.Wall
  value : State := ⟨0, 0, 0⟩

noncomputable instance : Inhabited BoundaryCondition := ⟨{}⟩

/-- `swe::Solver` data members (`solver.hpp`). -/
structure Solver where
  mesh : Mesh
  params : SolverParameters
  state : List State
  state_new : List State
  bathymetry : List ℝ
  boundary_conditions : List BoundaryCondition
  current_time : ℝ
  step_count : ℕ

/-- The `Solver` constructor (`solver.cpp`): all-zero state and bathymetry,
default (`Wall`) boundary conditions, time and step count zero. -/
noncomputable def Solver.create (mesh : Mesh) (params : SolverParameters) : Solver :=
  { mesh := mesh, params := params
    state := List.replicate mesh.triangles.length ⟨0, 0, 0⟩
    state_new := List.replicate mesh.triangles.length ⟨0, 0, 0⟩
    bathymetry := List.replicate mesh.triangles.length 0
    boundary_conditions := List.replicate mesh.edges.length {}
    current_time := 0
    step_count := 0 }

/-- `Solver::set_initial_condition`: throws on a length mismatch, otherwise
replaces `state_` and `state_new_` and nothing else. -/
noncomputable def set_initial_condition (s : Solver) (initial_state : List State) :
    Except String Solver :=
  if initial_state.length ≠ s.mesh.triangles.length then
    .error "Initial state size mismatch"
  else
    .ok { s with state := initial_state, state_new := initial_state }

/-- `Solver::set_constant_state`. -/
noncomputable def set_constant_state (s : Solver) (st : State) : Solver :=
  { s with state := List.replicate s.state.length st
           state_new := List.replicate s.state.length st }

/-- `Solver::set_bathymetry`: throws on a length mismatch. -/
noncomputable def set_bathymetry (s : Solver) (bathymetry : List ℝ) :
    Except String Solver :=
  if bathymetry.length ≠ s.mesh.triangles.length then
    .error "Bathymetry size mismatch"
  else
    .ok { s with bathymetry := bathymetry }

/-- `Solver::set_boundary_condition`: throws when `edge_id` is out of range
of `boundary_conditions_` (sized to the edge count), otherwise stores the
condition for that edge — boundary or not. -/
noncomputable def set_boundary_condition (s : Solver) (edge_id : ℕ)
    (bc : BoundaryCondition) : Except String Solver :=
  if edge_id ≥ s.boundary_conditions.length then
    .error "Edge ID out of range"
  else
    .ok { s with boundary_conditions := s.boundary_conditions.set edge_id bc }

/-- `Solver::set_all_boundaries`: assigns `bc` to every boundary edge. -/
noncomputable def set_all_boundaries (s : Solver) (bc : BoundaryCondition) : Solver :=
  let bcs := (List.range s.mesh.edges.length).foldl (fun bcs i =>
    if (s.mesh.edges.getD i default).tri1 = -1 then bcs.set i bc else bcs)
    s.boundary_conditions
  { s with boundary_conditions := bcs }

/-- `Solver::apply_boundary_condition` (`solver.cpp`): ghost state for a
boundary edge.  `Wall` mirrors the normal velocity, `Open`/`Outflow` copy
the interior state, `Inflow` returns the stored state. -/
noncomputable def apply_boundary_condition (s : Solver) (interior_state : State)
    (edge_id : ℕ) (normal : Point) : State :=
  let bc := s.boundary_conditions.getD edge_id default
  match bc.type with
  | BoundaryType.Wall =>
      let u := if interior_state.h > s.params.dry_tolerance then
          interior_state.hu / interior_state.h else 0
      let v := if interior_state.h > s.params.dry_tolerance then
          interior_state.hv / interior_state.h else 0
      let un := u * normal.x + v * normal.y
      { interior_state with
          hu := interior_state.h * (u - 2 * un * normal.x)
          hv := interior_state.h * (v - 2 * un * normal.y) }
  | BoundaryType.Open => interior_state
  | BoundaryType.Inflow => bc.value
  | BoundaryType.Outflow => interior_state

/-- `Solver::compute_source_terms` (`solver.cpp`): Manning friction only —
there is no bed-slope term, and the stored bathymetry is never read.  The
unused `triangle_id` parameter is dropped. -/
noncomputable def compute_source_terms (s : Solver) (st : State) : State :=
  if s.params.friction > 0 ∧ st.h > s.params.dry_tolerance then
    let u := st.hu / st.h
    let v := st.hv / st.h
    let speed := Real.sqrt (u * u + v * v)
    let friction_coeff := s.params.gravity * s.params.friction * s.params.friction *
        speed / st.h ^ ((4 : ℝ) / 3)
    { h := 0, hu := -friction_coeff * st.hu, hv := -friction_coeff * st.hv }
  else ⟨0, 0, 0⟩

/-- The HLL flux across edge `p.2` (with index `p.1`), with the interior
state on the left and either the neighbour state or the boundary ghost state
on the right — the flux `Solver::compute_fluxes` computes for this edge. -/
noncomputable def edge_flux (s : Solver) (p : ℕ × Edge) : State :=
  let edge := p.2
  let left_state := s.state.getD edge.tri0.toNat default
  let right_state := if edge.tri1 ≥ 0 then s.state.getD edge.tri1.toNat default
    else apply_boundary_condition s left_state p.1 edge.normal
  compute_hll_flux s.params left_state right_state edge.normal s.params.gravity

/-- One iteration of the edge loop of `Solver::compute_fluxes`: skip edges
with no left triangle, otherwise subtract `flux * length * dt / area` from
the left cell's residual and (for interior edges) add the right cell's
share. -/
noncomputable def flux_edge_update (s : Solver) (dt : ℝ) (res : List State)
    (p : ℕ × Edge) : List State :=
  let edge := p.2
  if edge.tri0 < 0 then res
  else
    let flux := edge_flux s p
    let left_id := edge.tri0.toNat
    let res1 := res.set left_id (res.getD left_id default -
      ((flux.smul edge.length).smul dt).sdiv
        (s.mesh.triangles.getD left_id default).area)
    if edge.tri1 ≥ 0 then
      res1.set edge.tri1.toNat (res1.getD edge.tri1.toNat default +
        ((flux.smul edge.length).smul dt).sdiv
          (s.mesh.triangles.getD edge.tri1.toNat default).area)
    else res1

/-- `Solver::compute_fluxes` (`solver.cpp`): per-edge HLL fluxes accumulated
into the per-cell residuals, each contribution already multiplied by
`edge.length * dt / area`. -/
noncomputable def compute_fluxes (s : Solver) (dt : ℝ) (residuals : List State) :
    List State :=
  s.mesh.edges.enum.foldl (flux_edge_update s dt) residuals

/-- `Solver::apply_source_terms` (`solver.cpp`). -/
noncomputable def apply_source_terms (s : Solver) (dt : ℝ)
    (residuals : List State) : List State :=
  List.zipWith (fun r st => r + (compute_source_terms s st).smul dt)
    residuals s.state

/-- `Solver::update_state` (`solver.cpp`): add the residuals, then clamp any
cell whose depth fell below the dry tolerance to the exact zero state. -/
noncomputable def update_state (s : Solver) (residuals : List State) : List State :=
  List.zipWith (fun st r =>
    let upd := st + r
    if upd.h < s.params.dry_tolerance then ⟨0, 0, 0⟩ else upd)
    s.state residuals

/-- The residual vector `step` builds before updating the state. -/
noncomputable def step_residuals (s : Solver) (dt : ℝ) : List State :=
  apply_source_terms s dt
    (compute_fluxes s dt (List.replicate s.state.length ⟨0, 0, 0⟩))

/-- `Solver::step` (`solver.cpp`): one flux pass, one source pass, one state
update, then advance the clock and the step counter. -/
noncomputable def step (s : Solver) (dt : ℝ) : Solver :=
  { s with state := update_state s (step_residuals s dt)
           current_time := s.current_time + dt
           step_count := s.step_count + 1 }

/-- `Solver::max_wave_speed`. -/
noncomputable def max_wave_speed (s : Solver) : ℝ :=
  s.state.foldl (fun max_speed st =>
    if st.h > s.params.dry_tolerance then
      max max_speed
        (Real.sqrt ((st.hu / st.h) * (st.hu / st.h) +
          (st.hv / st.h) * (st.hv / st.h)) +
         Real.sqrt (s.params.gravity * st.h))
    else max_speed) 0

/-- `Solver::compute_time_step`. -/
noncomputable def compute_time_step (s : Solver) : ℝ :=
  let max_speed := max_wave_speed s
  let min_dx := min_edge_length s.mesh
  if max_speed < 1e-10 then
    s.params.cfl * min_dx / Real.sqrt (s.params.gravity * s.params.min_depth)
  else
    s.params.cfl * min_dx / max_speed

/-- `Solver::advance_to_time` (`solver.cpp`), with explicit iteration fuel:
`advance_to_time s t n` performs up to `n` loop iterations of the C++
`while (current_time_ < target_time)` loop. -/
noncomputable def advance_to_time (s : Solver) (target_time : ℝ) : ℕ → Solver
  | 0 => s
  | fuel + 1 =>
      if s.current_time < target_time then
        let dt0 := compute_time_step s
        let dt := if s.current_time + dt0 > target_time then
            target_time - s.current_time else dt0
        advance_to_time (step s dt) target_time fuel
      else s

/-- `Solver::total_mass`. -/
noncomputable def total_mass (s : Solver) : ℝ :=
  (s.state.zip s.mesh.triangles).foldl (fun mass p => mass + p.1.h * p.2.area) 0

/-- A public call sequence against a solver: `step(dt)` and
`advance_to_time(t)` (the latter with its iteration fuel). -/
inductive SolverCmd
  | step (dt : ℝ)
  | advance (target : ℝ) (fuel : ℕ)

/-- Run a sequence of public calls. -/
noncomputable def run_commands (cmds : List SolverCmd) (s : Solver) : Solver :=
  cmds.foldl (fun s c =>
    match c with
    | SolverCmd.step dt => step s dt
    | SolverCmd.advance t fuel => advance_to_time s t fuel) s

/-- Two solvers that are identical except possibly in the boundary-condition
entries stored for interior (two-triangle) edges. -/
def same_except_interior_bcs (s1 s2 : Solver) : Prop :=
  s1.mesh = s2.mesh ∧ s1.params = s2.params ∧ s1.state = s2.state ∧
  s1.state_new = s2.state_new ∧ s1.bathymetry = s2.bathymetry ∧
  s1.current_time = s2.current_time ∧ s1.step_count = s2.step_count ∧
  ∀ i, i < s1.mesh.edges.length → (s1.mesh.edges.getD i default).tri1 < 0 →
    s1.boundary_conditions.getD i default = s2.boundary_conditions.getD i default

/-- The per-cell state after `update_state` adds the residuals but before
its positivity clamp runs ("the updated depth" of the claims). -/
noncomputable def updated_before_clamp (s : Solver) (dt : ℝ) : List State :=
  List.zipWith (fun st r => st + r) s.state (step_residuals s dt)

/-- The positivity clamp, as the specification words it: any cell with `h`
below the dry tolerance has `h`, `hu`, `hv` all set to exactly zero. -/
noncomputable def clamp_positivity (params : SolverParameters)
    (states : List State) : List State :=
  states.map (fun st => if st.h < params.dry_tolerance then ⟨0, 0, 0⟩ else st)

/-- One iteration of the specification's residual-assembly edge loop
(§4.5): accumulate `flux × edge length`, subtracted from the owning cell
and added to the neighbour, with no `dt` and no area factor yet. -/
noncomputable def spec_edge_update (s : Solver) (res : List State)
    (p : ℕ × Edge) : List State :=
  let edge := p.2
  if edge.tri0 < 0 then res
  else
    let flux := edge_flux s p
    let left_id := edge.tri0.toNat
    let res1 := res.set left_id (res.getD left_id default - flux.smul edge.length)
    if edge.tri1 ≥ 0 then
      res1.set edge.tri1.toNat (res1.getD edge.tri1.toNat default +
        flux.smul edge.length)
    else res1

/-- The specification's per-unit-time residual `R(U)` (§4.5): accumulate the
edge fluxes times edge lengths, divide every cell's residual by its own
area, then add the local source term. -/
noncomputable def spec_residual (s : Solver) : List State :=
  let raw := s.mesh.edges.enum.foldl (spec_edge_update s)
    (List.replicate s.state.length ⟨0, 0, 0⟩)
  let divided := raw.mapIdx (fun i x =>
    x.sdiv (s.mesh.triangles.getD i default).area)
  List.zipWith (fun r st => r + compute_source_terms s st) divided s.state

/-- The two-stage RK2 step exactly as the specification words it (§4.5,
claim C3): evaluate `R(U)`, form the midpoint `U* = U − (dt/2)·R(U)`,
evaluate `R(U*)`, set `U_next = U − dt·R(U*)`, then apply the positivity
clamp and advance clock and counter. -/
noncomputable def rk2_step_spec (s : Solver) (dt : ℝ) : Solver :=
  let r1 := spec_residual s
  let ustar := List.zipWith (fun st r => st - r.smul (dt / 2)) s.state r1
  let r2 := spec_residual { s with state := ustar }
  let unew := List.zipWith (fun st r => st - r.smul dt) s.state r2
  { s with state := clamp_positivity s.params unew
           current_time := s.current_time + dt
           step_count := s.step_count + 1 }

/-- A single-evaluation forward-Euler step phrased through the
specification's residual `R(U)`: `U_next = U + dt·R(U)`, then the
positivity clamp (the amended claim C3: this is what `step` computes). -/
noncomputable def euler_step_spec (s : Solver) (dt : ℝ) : Solver :=
  let r := spec_residual s
  let unew := List.zipWith (fun st ri => st + ri.smul dt) s.state r
  { s with state := clamp_positivity s.params unew
           current_time := s.current_time + dt
           step_count := s.step_count + 1 }

/-- A one-triangle mesh with no edges: the specification's own
"single dry-free cell model ... no mesh edges active" configuration for
isolating the friction source term. -/
noncomputable def frictionMesh : Mesh :=
  { nodes := []
    triangles := [{ n0 := 0, n1 := 0, n2 := 0, centroid := ⟨0, 0⟩, area := 1 }]
    edges := [] }

/-- A solver over `frictionMesh` with unit gravity, Manning coefficient 1,
and the single cell holding `(h, hu, hv) = (1, 1, 0)`. -/
noncomputable def frictionSolver : Solver :=
  { mesh := frictionMesh
    params := { gravity := 1, cfl := 0.5, friction := 1
                min_depth := 1e-6, dry_tolerance := 1e-8 }
    state := [⟨1, 1, 0⟩]
    state_new := [⟨1, 1, 0⟩]
    bathymetry := [0]
    boundary_conditions := []
    current_time := 0
    step_count := 0 }

/-- The mesh `create_rectangular 1 1 1 1` evaluates to: four unit-square
nodes, two triangles, five edges discovered in source order.  Note the
normals: the bottom edge's normal `(0,1)` points into its only triangle,
and the diagonal's normal points from `triangles[1]` toward
`triangles[0]`. -/
noncomputable def unitMesh : Mesh :=
  { nodes := [⟨0, 0⟩, ⟨1, 0⟩, ⟨0, 1⟩, ⟨1, 1⟩]
    triangles :=
      [{ n0 := 0, n1 := 1, n2 := 2, centroid := ⟨1/3, 1/3⟩, area := 1/2 },
       { n0 := 1, n1 := 3, n2 := 2, centroid := ⟨2/3, 2/3⟩, area := 1/2 }]
    edges :=
      [{ nodes := (0, 1), tri0 := 0, tri1 := -1, midpoint := ⟨1/2, 0⟩,
         length := 1, normal := ⟨0, 1⟩ },
       { nodes := (1, 2), tri0 := 0, tri1 := 1, midpoint := ⟨1/2, 1/2⟩,
         length := Real.sqrt 2,
         normal := ⟨-1 / Real.sqrt 2, -1 / Real.sqrt 2⟩ },
       { nodes := (0, 2), tri0 := 0, tri1 := -1, midpoint := ⟨0, 1/2⟩,
         length := 1, normal := ⟨-1, 0⟩ },
       { nodes := (1, 3), tri0 := 1, tri1 := -1, midpoint := ⟨1, 1/2⟩,
         length := 1, normal := ⟨-1, 0⟩ },
       { nodes := (2, 3), tri0 := 1, tri1 := -1, midpoint := ⟨1/2, 1⟩,
         length := 1, normal := ⟨0, 1⟩ }] }

/-- All-wall boundary conditions for the five edges of `unitMesh` (also the
constructor's default). -/
noncomputable def wallBcs : List BoundaryCondition := List.replicate 5 {}

/-- A still-water solver on the unit square: constant depth 2, zero
momentum, flat bathymetry, wall boundaries everywhere, gravity 2. -/
noncomputable def stillSolver : Solver :=
  { mesh := create_rectangular 1 1 1 1
    params := { gravity := 2, cfl := 0.5, friction := 0
                min_depth := 1e-6, dry_tolerance := 1e-8 }
    state := [⟨2, 0, 0⟩, ⟨2, 0, 0⟩]
    state_new := [⟨2, 0, 0⟩, ⟨2, 0, 0⟩]
    bathymetry := [0, 0]
    boundary_conditions := wallBcs
    current_time := 0
    step_count := 0 }

/-- The boundary-condition list of `stillSolver` with the entry of the
interior (diagonal) edge 1 replaced by an inflow condition. -/
noncomputable def altBcs : List BoundaryCondition :=
  (List.replicate 5 ({} : BoundaryCondition)).set 1
    { type := BoundaryType.Inflow, value := ⟨5, 5, 5⟩ }

/-- `stillSolver` with a (never consulted) inflow condition stored on the
interior edge. -/
noncomputable def stillSolverAltBc : Solver :=
  { stillSolver with boundary_conditions := altBcs }

/-- A solver on the unit square whose two cells hold a positive depth
`1/2000` strictly below the dry tolerance `1/1000`, with zero momentum and
wall boundaries. -/
noncomputable def drySolver : Solver :=
  { mesh := create_rectangular 1 1 1 1
    params := { gravity := 2, cfl := 0.5, friction := 0
                min_depth := 1e-6, dry_tolerance := 1/1000 }
    state := [⟨1/2000, 0, 0⟩, ⟨1/2000, 0, 0⟩]
    state_new := [⟨1/2000, 0, 0⟩, ⟨1/2000, 0, 0⟩]
    bathymetry := [0, 0]
    boundary_conditions := wallBcs
    current_time := 0
    step_count := 0 }

/-- The mass functional on a vector of per-cell states: `Σ h_i · area_i`
over the vector's indices, with the areas taken from the triangle list
(`Solver::total_mass` computes exactly this over the solver's state). -/
noncomputable def cell_mass (tris : List Triangle) (res : List State) : ℝ :=
  ∑ i in Finset.range res.length,
    (res.getD i default).h * (tris.getD i default).area

/-- The side conditions on one enumerated edge under which its flux
contribution moves mass between cells without creating or destroying any:
adjacent triangle indices in range with nonzero areas, and — for a boundary
edge — a wall condition, a unit normal, and an owning cell that is either
wet or at rest. -/
def edge_mass_ok (s : Solver) (p : ℕ × Edge) : Prop :=
  (0 ≤ p.2.tri0 → p.2.tri0.toNat < s.state.length ∧
    (s.mesh.triangles.getD p.2.tri0.toNat default).area ≠ 0) ∧
  (0 ≤ p.2.tri1 → p.2.tri1.toNat < s.state.length ∧
    (s.mesh.triangles.getD p.2.tri1.toNat default).area ≠ 0) ∧
  (0 ≤ p.2.tri0 → p.2.tri1 < 0 →
    (s.boundary_conditions.getD p.1 default).type = BoundaryType.Wall ∧
    p.2.normal.x ^ 2 + p.2.normal.y ^ 2 = 1 ∧
    (s.params.dry_tolerance < (s.state.getD p.2.tri0.toNat default).h ∨
     ((s.state.getD p.2.tri0.toNat default).hu = 0 ∧
      (s.state.getD p.2.tri0.toNat default).hv = 0)))

/-- One `find_or_create_edge` call with its canonical key precomputed: the
per-sighting step of `build_connectivity`'s nested loops. -/
noncomputable def record_side (st : ConnState) (q : (ℕ × ℕ) × ℕ) : ConnState :=
  match mapLookup st.emap q.1 with
  | some edge_id =>
      let e := st.edges.getD edge_id default
      { st with edges := st.edges.set edge_id { e with tri1 := (q.2 : ℤ) } }
  | none =>
      { edges := st.edges ++ [{ nodes := q.1, tri0 := (q.2 : ℤ), tri1 := -1 }],
        emap := (q.1, st.edges.length) :: st.emap }

/-- The flattened sequence of `(canonical key, triangle id)` side sightings
that `build_connectivity`'s two nested loops feed to `find_or_create_edge`,
in visit order. -/
def sightings (triangles : List Triangle) : List ((ℕ × ℕ) × ℕ) :=
  triangles.enum.flatMap (fun p =>
    (sidePairs p.2).map (fun q => (edge_key q.1 q.2, p.1)))

/-- How many sightings of the canonical key `k` a sighting list holds. -/
def kcount (l : List ((ℕ × ℕ) × ℕ)) (k : ℕ × ℕ) : ℕ :=
  l.countP (fun q => decide (q.1 = k))

/-- The three canonical side keys of a triangle. -/
def side_keys (t : Triangle) : List (ℕ × ℕ) :=
  (sidePairs t).map (fun q => edge_key q.1 q.2)

/-- The number of triangles of a list adjacent to — having a side with —
the canonical node pair `k`. -/
def adj_count (triangles : List Triangle) (k : ℕ × ℕ) : ℕ :=
  triangles.countP (fun t => decide (k ∈ side_keys t))

/-- The invariant `build_connectivity`'s fold maintains after processing
the sighting list `l`: the key map indexes the edge list bijectively, a key
is absent exactly when unseen, and each edge's `tri1` records whether its
key was seen once (`-1`) or at least twice. -/
def ConnInv (l : List ((ℕ × ℕ) × ℕ)) (st : ConnState) : Prop :=
  (∀ k eid, mapLookup st.emap k = some eid →
    eid < st.edges.length ∧ (st.edges.getD eid default).nodes = k) ∧
  (∀ eid, eid < st.edges.length →
    mapLookup st.emap ((st.edges.getD eid default).nodes) = some eid) ∧
  (∀ k, mapLookup st.emap k = none → kcount l k = 0) ∧
  (∀ eid, eid < st.edges.length →
    ((st.edges.getD eid default).tri1 = -1 ∧
      kcount l ((st.edges.getD eid default).nodes) = 1) ∨
    ((st.edges.getD eid default).tri1 ≠ -1 ∧
      2 ≤ kcount l ((st.edges.getD eid default).nodes)))

/-- The horizontal grid key `(n0, n0+1)` at row `j`, column `i` of the
`create_rectangular` node numbering (`n0 = j*(nx+1)+i`). -/
def kH (nx j i : ℕ) : ℕ × ℕ := (j * (nx + 1) + i, j * (nx + 1) + i + 1)

/-- The vertical grid key `(n0, n0+nx+1)`. -/
def kV (nx j i : ℕ) : ℕ × ℕ :=
  (j * (nx + 1) + i, j * (nx + 1) + i + (nx + 1))

/-- The diagonal grid key `(n0+1, n0+nx+1)`. -/
def kD (nx j i : ℕ) : ℕ × ℕ :=
  (j * (nx + 1) + i + 1, j * (nx + 1) + i + (nx + 1))

/-- The two triangles `create_rectangular` places in quad `(j, i)`. -/
def quad_triangles (nx j i : ℕ) : List Triangle :=
  [{ n0 := j * (nx + 1) + i, n1 := j * (nx + 1) + i + 1,
     n2 := j * (nx + 1) + i + (nx + 1) },
   { n0 := j * (nx + 1) + i + 1, n1 := j * (nx + 1) + i + (nx + 1) + 1,
     n2 := j * (nx + 1) + i + (nx + 1) }]

/-- The raw (pre-geometry) triangle list of `create_rectangular`. -/
def grid_triangles (nx ny : ℕ) : List Triangle :=
  (List.range ny).flatMap (fun j =>
    (List.range nx).flatMap (fun i => quad_triangles nx j i))

/-- The raw node list of `create_rectangular`. -/
noncomputable def grid_nodes (width height : ℝ) (nx ny : ℕ) : List Point :=
  (List.range (ny + 1)).flatMap (fun j =>
    (List.range (nx + 1)).map (fun (i : ℕ) =>
      Point.mk ((i : ℝ) * (width / nx)) ((j : ℝ) * (height / ny))))

/-- The `2(nx+ny)` canonical keys of the grid's boundary edges: bottom and
top horizontal rows, left and right vertical columns. -/
def boundary_keys (nx ny : ℕ) : List (ℕ × ℕ) :=
  (List.range nx).map (fun i => kH nx 0 i) ++
  ((List.range nx).map (fun i => kH nx ny i) ++
   ((List.range ny).map (fun j => kV nx j 0) ++
    (List.range ny).map (fun j => kV nx j nx)))

/-! ### Lemmas and claim theorems -/

/-- Unfolded form of `compute_wave_speeds`. -/
theorem compute_wave_speeds_def (params : SolverParameters)
    (left right : State) (normal : Point) (gravity : ℝ) :
    compute_wave_speeds params left right normal gravity =
      (min ((if left.h > params.dry_tolerance then
          (left.hu * normal.x + left.hv * normal.y) / left.h else 0) -
          Real.sqrt (gravity * max left.h params.min_depth))
        ((if right.h > params.dry_tolerance then
          (right.hu * normal.x + right.hv * normal.y) / right.h else 0) -
          Real.sqrt (gravity * max right.h params.min_depth)),
       max ((if left.h > params.dry_tolerance then
          (left.hu * normal.x + left.hv * normal.y) / left.h else 0) +
          Real.sqrt (gravity * max left.h params.min_depth))
        ((if right.h > params.dry_tolerance then
          (right.hu * normal.x + right.hv * normal.y) / right.h else 0) +
          Real.sqrt (gravity * max right.h params.min_depth))) := rfl

/-- Swapping the states and negating the normal swaps and negates the two
HLL wave-speed estimates. -/
theorem compute_wave_speeds_swap (params : SolverParameters)
    (left right : State) (normal : Point) (gravity : ℝ) :
    compute_wave_speeds params right left (-normal) gravity =
      (-(compute_wave_speeds params left right normal gravity).2,
       -(compute_wave_speeds params left right normal gravity).1) := by
  rw [compute_wave_speeds_def, compute_wave_speeds_def]
  have hnl : (if right.h > params.dry_tolerance then
      (right.hu * (-normal).x + right.hv * (-normal).y) / right.h else 0) =
      -(if right.h > params.dry_tolerance then
      (right.hu * normal.x + right.hv * normal.y) / right.h else 0) := by
    split <;> simp <;> ring
  have hnr : (if left.h > params.dry_tolerance then
      (left.hu * (-normal).x + left.hv * (-normal).y) / left.h else 0) =
      -(if left.h > params.dry_tolerance then
      (left.hu * normal.x + left.hv * normal.y) / left.h else 0) := by
    split <;> simp <;> ring
  rw [hnl, hnr]
  have key1 : ∀ uL uR cL cR : ℝ,
      min (-uR - cR) (-uL - cL) = -max (uL + cL) (uR + cR) := by
    intro uL uR cL cR
    rw [max_comm, ← min_neg_neg]
    congr 1
    · ring
    · ring
  have key2 : ∀ uL uR cL cR : ℝ,
      max (-uR + cR) (-uL + cL) = -min (uL - cL) (uR - cR) := by
    intro uL uR cL cR
    rw [min_comm, ← max_neg_neg]
    congr 1
    · ring
    · ring
  exact Prod.ext (key1 _ _ _ _) (key2 _ _ _ _)

/-- Negating the normal negates the physical flux of a state. -/
theorem physical_flux_neg (params : SolverParameters) (s : State)
    (normal : Point) (gravity : ℝ) :
    physical_flux params s (-normal) gravity =
      -(physical_flux params s normal gravity) := by
  unfold physical_flux
  have hun : (if s.h > params.dry_tolerance then
      (s.hu * (-normal).x + s.hv * (-normal).y) / s.h else 0) =
      -(if s.h > params.dry_tolerance then
      (s.hu * normal.x + s.hv * normal.y) / s.h else 0) := by
    split <;> simp <;> ring
  rw [hun]
  ext <;> simp <;> ring

theorem State.neg_neg' (a : State) : -(-a) = a := by
  ext <;> simp

/-- Claim C1 (amended): the edge flux is exactly antisymmetric —
`compute_hll_flux(left,right,n,g)` equals the componentwise negation of
`compute_hll_flux(right,left,-n,g)` — for every pair of states and every
normal, provided gravity and the `min_depth` parameter are positive (as the
C++ defaults are; the unrestricted claim fails at `g = 0`). -/
theorem hll_flux_antisymmetric (params : SolverParameters) (left right : State)
    (normal : Point) (gravity : ℝ) (hg : 0 < gravity)
    (hmd : 0 < params.min_depth) :
    compute_hll_flux params left right normal gravity =
      -(compute_hll_flux params right left (-normal) gravity) := by
  have hcl : 0 < Real.sqrt (gravity * max left.h params.min_depth) :=
    Real.sqrt_pos.mpr (mul_pos hg (lt_max_of_lt_right hmd))
  have hpos : (compute_wave_speeds params left right normal gravity).1 ≥ 0 →
      0 < (compute_wave_speeds params left right normal gravity).2 := by
    rw [compute_wave_speeds_def]
    dsimp only
    intro hmin
    have h1 := le_trans hmin (min_le_left _ _)
    refine lt_max_iff.mpr (Or.inl ?_)
    linarith
  have hswap := compute_wave_speeds_swap params left right normal gravity
  simp only [compute_hll_flux, hswap, physical_flux_neg, Prod.fst, Prod.snd]
  by_cases hA : (compute_wave_speeds params left right normal gravity).1 ≥ 0
  · have hsr := hpos hA
    rw [if_pos hA, if_neg (by linarith), if_pos (by linarith), State.neg_neg']
  · by_cases hB : (compute_wave_speeds params left right normal gravity).2 ≤ 0
    · rw [if_neg hA, if_pos hB, if_pos (by linarith), State.neg_neg']
    · rw [if_neg hA, if_neg hB, if_neg (by simp at hB ⊢; linarith),
        if_neg (by simp at hA ⊢; linarith)]
      ext <;> simp <;> ring

/-- Claim C1: the flux antisymmetry identity fails at gravity `0` (an instance
of "every gravity g"): a dry left state with nonzero momentum gives a nonzero
flux while the swapped call gives zero, because both wave speeds collapse
to `0` and both calls take the `sl ≥ 0` branch. -/
theorem claim_C1_counterexample :
    compute_hll_flux ⟨9.81, 0.5, 0, 1e-6, 1e-8⟩ ⟨0, 1, 0⟩ ⟨0, 0, 0⟩ ⟨1, 0⟩ 0 ≠
      -(compute_hll_flux ⟨9.81, 0.5, 0, 1e-6, 1e-8⟩ ⟨0, 0, 0⟩ ⟨0, 1, 0⟩
        (-(⟨1, 0⟩ : Point)) 0) := by
  have hL : compute_hll_flux ⟨9.81, 0.5, 0, 1e-6, 1e-8⟩ ⟨0, 1, 0⟩ ⟨0, 0, 0⟩
      ⟨1, 0⟩ 0 = ⟨1, 0, 0⟩ := by
    simp only [compute_hll_flux, compute_wave_speeds_def, physical_flux]
    norm_num
  have hR : compute_hll_flux ⟨9.81, 0.5, 0, 1e-6, 1e-8⟩ ⟨0, 0, 0⟩ ⟨0, 1, 0⟩
      (-(⟨1, 0⟩ : Point)) 0 = ⟨0, 0, 0⟩ := by
    simp only [compute_hll_flux, compute_wave_speeds_def, physical_flux]
    norm_num
  rw [hL, hR]
  intro h
  have := congrArg State.h h
  simp at this

/-- Claim C1 (amended): proved for every positive gravity; here instantiated
at the default parameters, a unit normal and two concrete states. -/
theorem claim_C1_witness :
    (0:ℝ) < 9.81 ∧
    (0:ℝ) < (⟨9.81, 0.5, 0, 1e-6, 1e-8⟩ : SolverParameters).min_depth ∧
    compute_hll_flux ⟨9.81, 0.5, 0, 1e-6, 1e-8⟩ ⟨1, 2, 3⟩ ⟨2, 1, 0⟩ ⟨1, 0⟩ 9.81 =
      -(compute_hll_flux ⟨9.81, 0.5, 0, 1e-6, 1e-8⟩ ⟨2, 1, 0⟩ ⟨1, 2, 3⟩
        (-(⟨1, 0⟩ : Point)) 9.81) :=
  ⟨by norm_num, by norm_num,
    hll_flux_antisymmetric ⟨9.81, 0.5, 0, 1e-6, 1e-8⟩ ⟨1, 2, 3⟩ ⟨2, 1, 0⟩
      ⟨1, 0⟩ 9.81 (by norm_num) (by norm_num)⟩

/-- Claim C8 (amended): the HLL flux of two all-zero states is the zero
flux, for every normal, gravity and parameter set.  The source has no
dry-state early return, so this is all that survives of the "both depths
below the dry tolerance ⇒ zero flux" requirement: positive sub-tolerance
depths or nonzero momenta produce nonzero fluxes. -/
theorem hll_flux_zero_zero (params : SolverParameters) (normal : Point)
    (gravity : ℝ) :
    compute_hll_flux params ⟨0, 0, 0⟩ ⟨0, 0, 0⟩ normal gravity = ⟨0, 0, 0⟩ := by
  simp only [compute_hll_flux, compute_wave_speeds_def, physical_flux]
  split_ifs <;> ext <;> simp

/-- Claim C8: `compute_hll_flux` does not return the zero flux for all pairs
of below-dry-tolerance states: with dry tolerance `1/1000`, `min_depth`
`1/100`, gravity `1`, the dry pair `(1/2000,0,0)`, `(0,0,0)` across the unit
normal `(1,0)` produces a nonzero mass flux `1/40000`. -/
theorem claim_C8_counterexample :
    (1:ℝ)/2000 < 1/1000 ∧ (0:ℝ) < 1/1000 ∧
    (compute_hll_flux ⟨1, 0.5, 0, 1/100, 1/1000⟩ ⟨1/2000, 0, 0⟩ ⟨0, 0, 0⟩
      ⟨1, 0⟩ 1).h ≠ 0 := by
  refine ⟨by norm_num, by norm_num, ?_⟩
  simp only [compute_hll_flux, compute_wave_speeds_def, physical_flux]
  have h100 : Real.sqrt 100 = 10 := by
    rw [show (100:ℝ) = 10^2 by norm_num]
    exact Real.sqrt_sq (by norm_num)
  norm_num [h100]

theorem source_frictionSolver_one :
    compute_source_terms frictionSolver ⟨1, 1, 0⟩ = ⟨0, -1, 0⟩ := by
  rw [compute_source_terms]
  rw [if_pos (by constructor <;> norm_num [frictionSolver])]
  have h1 : Real.sqrt ((1:ℝ)/1 * (1/1) + 0/1 * (0/1)) = 1 := by
    rw [show ((1:ℝ)/1 * (1/1) + 0/1 * (0/1)) = 1 by norm_num]
    exact Real.sqrt_one
  norm_num [frictionSolver, h1, Real.one_rpow]

theorem step_frictionSolver :
    (step frictionSolver 1).state = [(⟨1, 0, 0⟩ : State)] := by
  have hflux : compute_fluxes frictionSolver 1
      (List.replicate frictionSolver.state.length ⟨0, 0, 0⟩) = [⟨0, 0, 0⟩] := by
    simp [compute_fluxes, frictionSolver, frictionMesh]
  have hres : step_residuals frictionSolver 1 = [(⟨0, -1, 0⟩ : State)] := by
    rw [step_residuals, hflux, apply_source_terms]
    rw [show frictionSolver.state = [(⟨1, 1, 0⟩ : State)] from rfl]
    rw [List.zipWith_cons_cons, List.zipWith_nil_right, source_frictionSolver_one]
    congr 1
    ext <;> simp
  show update_state frictionSolver (step_residuals frictionSolver 1) = _
  rw [hres, update_state]
  rw [show frictionSolver.state = [(⟨1, 1, 0⟩ : State)] from rfl]
  rw [List.zipWith_cons_cons, List.zipWith_nil_right]
  have hcond : ¬ (((⟨1, 1, 0⟩ : State) + ⟨0, -1, 0⟩).h <
      frictionSolver.params.dry_tolerance) := by
    norm_num [frictionSolver]
  rw [if_neg hcond]
  congr 1
  ext <;> norm_num

theorem rk2_frictionSolver :
    (rk2_step_spec frictionSolver 1).state = [(⟨1, 13/4, 0⟩ : State)] := by
  have hres1 : spec_residual frictionSolver = [(⟨0, -1, 0⟩ : State)] := by
    rw [spec_residual]
    have hraw : frictionSolver.mesh.edges.enum.foldl (spec_edge_update frictionSolver)
        (List.replicate frictionSolver.state.length ⟨0, 0, 0⟩) = [⟨0, 0, 0⟩] := by
      simp [frictionSolver, frictionMesh]
    rw [hraw]
    rw [show frictionSolver.state = [(⟨1, 1, 0⟩ : State)] from rfl]
    rw [List.mapIdx_cons, List.mapIdx_nil]
    rw [List.zipWith_cons_cons, List.zipWith_nil_right, source_frictionSolver_one]
    congr 1
    ext <;> norm_num [frictionSolver, frictionMesh]
  have hrk2state : ∀ mid : List State,
      mid = List.zipWith (fun st r => st - r.smul (1 / 2)) frictionSolver.state
        (spec_residual frictionSolver) →
      (rk2_step_spec frictionSolver 1).state = clamp_positivity frictionSolver.params
        (List.zipWith (fun st r => st - r.smul 1) frictionSolver.state
          (spec_residual { frictionSolver with state := mid })) := by
    intro mid h
    subst h
    rfl
  rw [hrk2state _ rfl]
  have hmid : List.zipWith (fun st r => st - r.smul ((1:ℝ) / 2))
      frictionSolver.state (spec_residual frictionSolver) =
      [(⟨1, 3/2, 0⟩ : State)] := by
    rw [hres1, show frictionSolver.state = [(⟨1, 1, 0⟩ : State)] from rfl]
    rw [List.zipWith_cons_cons, List.zipWith_nil_left]
    congr 1
    ext <;> norm_num
  rw [hmid]
  have hsrc2 : compute_source_terms
      { frictionSolver with state := [(⟨1, 3/2, 0⟩ : State)] } ⟨1, 3/2, 0⟩ =
      ⟨0, -9/4, 0⟩ := by
    rw [compute_source_terms]
    rw [if_pos (by constructor <;> norm_num [frictionSolver])]
    have h9 : Real.sqrt 9 = 3 := by
      rw [show (9:ℝ) = 3^2 by norm_num]
      exact Real.sqrt_sq (by norm_num)
    have h4 : Real.sqrt 4 = 2 := by
      rw [show (4:ℝ) = 2^2 by norm_num]
      exact Real.sqrt_sq (by norm_num)
    norm_num [frictionSolver, h9, h4, Real.one_rpow]
  have hres2 : spec_residual
      { frictionSolver with state := [(⟨1, 3/2, 0⟩ : State)] } =
      [(⟨0, -9/4, 0⟩ : State)] := by
    rw [spec_residual]
    have hraw : ({ frictionSolver with state := [(⟨1, 3/2, 0⟩ : State)] } :
        Solver).mesh.edges.enum.foldl
        (spec_edge_update { frictionSolver with state := [(⟨1, 3/2, 0⟩ : State)] })
        (List.replicate ({ frictionSolver with
          state := [(⟨1, 3/2, 0⟩ : State)] } : Solver).state.length ⟨0, 0, 0⟩) =
        [⟨0, 0, 0⟩] := by
      simp [frictionSolver, frictionMesh]
    rw [hraw]
    rw [show ({ frictionSolver with state := [(⟨1, 3/2, 0⟩ : State)] } :
      Solver).state = [(⟨1, 3/2, 0⟩ : State)] from rfl]
    rw [List.mapIdx_cons, List.mapIdx_nil]
    rw [List.zipWith_cons_cons, List.zipWith_nil_right, hsrc2]
    congr 1
    ext <;> norm_num [frictionSolver, frictionMesh]
  rw [hres2]
  rw [show frictionSolver.state = [(⟨1, 1, 0⟩ : State)] from rfl]
  rw [List.zipWith_cons_cons, List.zipWith_nil_right]
  rw [clamp_positivity, List.map_cons, List.map_nil]
  have hcond : ¬ (((⟨1, 1, 0⟩ : State) - (⟨0, -9/4, 0⟩ : State).smul 1).h <
      frictionSolver.params.dry_tolerance) := by
    norm_num [frictionSolver]
  rw [if_neg hcond]
  congr 1
  ext <;> norm_num

/-- Claim C3: `step` is not the specification's two-stage RK2 scheme.  On a
one-cell, zero-edge domain with Manning friction 1, unit gravity, state
`(1,1,0)` and `dt = 1`, `step` (one residual evaluation) leaves `hu = 0`
while the specification's RK2 step leaves `hu = 13/4`. -/
theorem claim_C3_counterexample :
    ((step frictionSolver 1).state.getD 0 default).hu ≠
      ((rk2_step_spec frictionSolver 1).state.getD 0 default).hu := by
  rw [step_frictionSolver, rk2_frictionSolver]
  norm_num

theorem getD_mapIdx_fixed {α : Type _} (g : ℕ → α → α) (d : α)
    (hg : ∀ i, g i d = d) (l : List α) (i : ℕ) :
    (l.mapIdx g).getD i d = g i (l.getD i d) := by
  simp only [List.getD_eq_getElem?_getD, List.getElem?_mapIdx]
  cases h : l[i]? <;> simp [hg]

theorem mapIdx_set {α : Type _} (g : ℕ → α → α) (l : List α) (i : ℕ) (w : α) :
    (l.set i w).mapIdx g = (l.mapIdx g).set i (g i w) := by
  apply List.ext_getElem?
  intro j
  simp only [List.getElem?_mapIdx, List.getElem?_set, List.length_mapIdx]
  by_cases h : i = j
  · subst h
    by_cases h2 : i < l.length <;> simp [h2]
  · simp [h]

/-- The scaling function that turns the specification's raw per-cell flux
accumulation into the code's: multiply by `dt` and divide by the cell
area. -/
noncomputable def scale_residual (s : Solver) (dt : ℝ) (i : ℕ) (x : State) : State :=
  (x.smul dt).sdiv (s.mesh.triangles.getD i default).area

theorem scale_residual_zero (s : Solver) (dt : ℝ) (i : ℕ) :
    scale_residual s dt i default = default := by
  rw [scale_residual]
  ext <;> simp

theorem scale_residual_sub (s : Solver) (dt : ℝ) (i : ℕ) (a b : State) :
    scale_residual s dt i (a - b) =
      scale_residual s dt i a - scale_residual s dt i b := by
  rw [scale_residual, scale_residual, scale_residual]
  ext <;> simp <;> ring

theorem scale_residual_add (s : Solver) (dt : ℝ) (i : ℕ) (a b : State) :
    scale_residual s dt i (a + b) =
      scale_residual s dt i a + scale_residual s dt i b := by
  rw [scale_residual, scale_residual, scale_residual]
  ext <;> simp <;> ring

theorem flux_edge_update_spec (s : Solver) (dt : ℝ) (res : List State)
    (p : ℕ × Edge) :
    flux_edge_update s dt (res.mapIdx (scale_residual s dt)) p =
      (spec_edge_update s res p).mapIdx (scale_residual s dt) := by
  simp only [flux_edge_update, spec_edge_update]
  by_cases h0 : p.2.tri0 < 0
  · rw [if_pos h0, if_pos h0]
  · rw [if_neg h0, if_neg h0]
    have hstep1 : ∀ (l : List State) (i : ℕ) (w : State),
        (l.mapIdx (scale_residual s dt)).set i
          ((l.mapIdx (scale_residual s dt)).getD i default -
            scale_residual s dt i w) =
        (l.set i (l.getD i default - w)).mapIdx (scale_residual s dt) := by
      intro l i w
      rw [mapIdx_set, getD_mapIdx_fixed _ _ (scale_residual_zero s dt) l i,
        scale_residual_sub]
    have hstep2 : ∀ (l : List State) (i : ℕ) (w : State),
        (l.mapIdx (scale_residual s dt)).set i
          ((l.mapIdx (scale_residual s dt)).getD i default +
            scale_residual s dt i w) =
        (l.set i (l.getD i default + w)).mapIdx (scale_residual s dt) := by
      intro l i w
      rw [mapIdx_set, getD_mapIdx_fixed _ _ (scale_residual_zero s dt) l i,
        scale_residual_add]
    have hcontrib : ∀ (i : ℕ),
        ((((edge_flux s p).smul p.2.length).smul dt).sdiv
          (s.mesh.triangles.getD i default).area) =
        scale_residual s dt i ((edge_flux s p).smul p.2.length) := by
      intro i
      rw [scale_residual]
    by_cases h1 : p.2.tri1 ≥ 0
    · rw [if_pos h1, if_pos h1, hcontrib, hstep1, hcontrib, hstep2]
    · rw [if_neg h1, if_neg h1, hcontrib, hstep1]

theorem flux_fold_spec (s : Solver) (dt : ℝ) (l : List (ℕ × Edge))
    (res : List State) :
    l.foldl (flux_edge_update s dt) (res.mapIdx (scale_residual s dt)) =
      (l.foldl (spec_edge_update s) res).mapIdx (scale_residual s dt) := by
  induction l generalizing res with
  | nil => rfl
  | cons p rest ih =>
    rw [List.foldl_cons, List.foldl_cons, flux_edge_update_spec, ih]

theorem mapIdx_replicate_default {α : Type _} (g : ℕ → α → α) (d : α)
    (hg : ∀ i, g i d = d) (n : ℕ) :
    (List.replicate n d).mapIdx g = List.replicate n d := by
  apply List.ext_getElem?
  intro j
  simp only [List.getElem?_mapIdx, List.getElem?_replicate]
  by_cases h : j < n <;> simp [h, hg]

theorem step_residuals_eq_spec (s : Solver) (dt : ℝ) :
    step_residuals s dt = (spec_residual s).map (fun r => r.smul dt) := by
  rw [step_residuals, compute_fluxes]
  have h0 : (List.replicate s.state.length (⟨0, 0, 0⟩ : State)) =
      (List.replicate s.state.length (⟨0, 0, 0⟩ : State)).mapIdx
        (scale_residual s dt) :=
    (mapIdx_replicate_default _ _ (scale_residual_zero s dt) _).symm
  rw [h0, flux_fold_spec, spec_residual]
  have hsplit : ∀ raw : List State,
      raw.mapIdx (scale_residual s dt) =
        (raw.mapIdx (fun i x =>
          x.sdiv (s.mesh.triangles.getD i default).area)).map (fun x => x.smul dt) := by
    intro raw
    apply List.ext_getElem?
    intro j
    simp only [List.getElem?_mapIdx, List.getElem?_map]
    cases h : raw[j]? with
    | none => rfl
    | some a =>
        show some (scale_residual s dt j a) =
          some ((a.sdiv (s.mesh.triangles.getD j default).area).smul dt)
        congr 1
        rw [scale_residual]
        ext <;> simp <;> ring
  rw [apply_source_terms, hsplit, List.zipWith_map_left, List.map_zipWith]
  congr 1
  funext a b
  ext <;> simp <;> ring

theorem update_state_eq_clamp (s : Solver) (res : List State) :
    update_state s res =
      clamp_positivity s.params (List.zipWith (fun a b => a + b) s.state res) := by
  rw [update_state, clamp_positivity, List.map_zipWith]

/-- Claim C3 (amended): `step(dt)` is a single-evaluation forward-Euler
update `U_next = clamp(U + dt·R(U))` of the specification's residual, not a
two-stage RK2 scheme. -/
theorem claim_C3_amended_euler (s : Solver) (dt : ℝ) :
    step s dt = euler_step_spec s dt := by
  have h : update_state s (step_residuals s dt) =
      clamp_positivity s.params
        (List.zipWith (fun st ri => st + ri.smul dt) s.state (spec_residual s)) := by
    rw [update_state_eq_clamp, step_residuals_eq_spec, List.zipWith_map_right]
  simp only [step, euler_step_spec]
  rw [h]

theorem getD_zipWith {α β γ : Type _} (f : α → β → γ) (as : List α)
    (bs : List β) (i : ℕ) (d : γ) (da : α) (db : β)
    (h1 : i < as.length) (h2 : i < bs.length) :
    (List.zipWith f as bs).getD i d = f (as.getD i da) (bs.getD i db) := by
  simp [List.getD_eq_getElem?_getD, List.getElem?_zipWith,
    List.getElem?_eq_getElem h1, List.getElem?_eq_getElem h2]

theorem length_flux_edge_update (s : Solver) (dt : ℝ) (res : List State)
    (p : ℕ × Edge) : (flux_edge_update s dt res p).length = res.length := by
  simp only [flux_edge_update]
  split_ifs <;> simp [List.length_set]

theorem length_foldl_flux (s : Solver) (dt : ℝ) (l : List (ℕ × Edge))
    (res : List State) :
    (l.foldl (flux_edge_update s dt) res).length = res.length := by
  induction l generalizing res with
  | nil => rfl
  | cons p rest ih => rw [List.foldl_cons, ih, length_flux_edge_update]

theorem length_step_residuals (s : Solver) (dt : ℝ) :
    (step_residuals s dt).length = s.state.length := by
  rw [step_residuals, apply_source_terms, List.length_zipWith, compute_fluxes,
    length_foldl_flux, List.length_replicate, min_self]

/-- Claim C5: after every `step(dt)` call every cell's depth is nonnegative,
and every cell whose updated (pre-clamp) depth is below the dry tolerance
ends with `h`, `hu`, `hv` all exactly zero — for any solver state and time
step, given the (default-satisfied) nonnegativity of the dry tolerance. -/
theorem claim_C5 (s : Solver) (dt : ℝ) (hdry : 0 ≤ s.params.dry_tolerance) :
    (∀ i, 0 ≤ ((step s dt).state.getD i default).h) ∧
    (∀ i, i < s.state.length →
      ((updated_before_clamp s dt).getD i default).h < s.params.dry_tolerance →
      (step s dt).state.getD i default = ⟨0, 0, 0⟩) := by
  have hlen : (step_residuals s dt).length = s.state.length :=
    length_step_residuals s dt
  have hupd : ∀ i, i < s.state.length →
      (step s dt).state.getD i default =
        (if (s.state.getD i default + (step_residuals s dt).getD i default).h <
            s.params.dry_tolerance then (⟨0, 0, 0⟩ : State)
         else s.state.getD i default + (step_residuals s dt).getD i default) := by
    intro i hi
    show (update_state s (step_residuals s dt)).getD i default = _
    rw [update_state, getD_zipWith _ _ _ i default default default hi
      (by rw [hlen]; exact hi)]
  constructor
  · intro i
    by_cases h : i < s.state.length
    · rw [hupd i h]
      by_cases hc : (s.state.getD i default +
          (step_residuals s dt).getD i default).h < s.params.dry_tolerance
      · rw [if_pos hc]
      · rw [if_neg hc]
        exact le_trans hdry (not_lt.mp hc)
    · have hout : (step s dt).state.length ≤ i := by
        show (update_state s (step_residuals s dt)).length ≤ i
        rw [update_state, List.length_zipWith, hlen, min_self]
        exact le_of_not_lt h
      rw [List.getD_eq_default _ _ hout]
      simp
  · intro i hi hless
    have hval : (updated_before_clamp s dt).getD i default =
        s.state.getD i default + (step_residuals s dt).getD i default := by
      rw [updated_before_clamp, getD_zipWith _ _ _ i default default default hi
        (by rw [hlen]; exact hi)]
    rw [hval] at hless
    rw [hupd i hi, if_pos hless]

/-- Claim C5 instantiated: the single-cell friction solver satisfies both
positivity conclusions after one step. -/
theorem claim_C5_witness :
    (0:ℝ) ≤ frictionSolver.params.dry_tolerance ∧
    ((∀ i, 0 ≤ ((step frictionSolver 1).state.getD i default).h) ∧
     (∀ i, i < frictionSolver.state.length →
       ((updated_before_clamp frictionSolver 1).getD i default).h <
         frictionSolver.params.dry_tolerance →
       (step frictionSolver 1).state.getD i default = ⟨0, 0, 0⟩)) :=
  ⟨by norm_num [frictionSolver],
   claim_C5 frictionSolver 1 (by norm_num [frictionSolver])⟩

/-- Claim C9: `set_initial_condition` and `set_bathymetry` fail exactly when
the array length differs from the triangle count, `set_boundary_condition`
fails exactly when the edge id is not below the number of stored conditions
(one per edge for a constructed solver); each success changes only the
intended fields, and a failure returns no solver at all, so no solver state
is modified. -/
theorem claim_C9 :
    (∀ (s : Solver) (init : List State),
      ((∃ e, set_initial_condition s init = Except.error e) ↔
        init.length ≠ s.mesh.triangles.length) ∧
      (∀ s', set_initial_condition s init = Except.ok s' →
        s' = { s with state := init, state_new := init })) ∧
    (∀ (s : Solver) (b : List ℝ),
      ((∃ e, set_bathymetry s b = Except.error e) ↔
        b.length ≠ s.mesh.triangles.length) ∧
      (∀ s', set_bathymetry s b = Except.ok s' →
        s' = { s with bathymetry := b })) ∧
    (∀ (s : Solver) (eid : ℕ) (bc : BoundaryCondition),
      ((∃ e, set_boundary_condition s eid bc = Except.error e) ↔
        s.boundary_conditions.length ≤ eid) ∧
      (∀ s', set_boundary_condition s eid bc = Except.ok s' →
        s' = { s with boundary_conditions := s.boundary_conditions.set eid bc })) ∧
    (∀ (mesh : Mesh) (params : SolverParameters) (eid : ℕ)
        (bc : BoundaryCondition),
      (∃ e, set_boundary_condition (Solver.create mesh params) eid bc =
        Except.error e) ↔ mesh.edges.length ≤ eid) := by
  refine ⟨fun s init => ⟨?_, ?_⟩, fun s b => ⟨?_, ?_⟩,
    fun s eid bc => ⟨?_, ?_⟩, fun mesh params eid bc => ?_⟩
  · rw [set_initial_condition]
    by_cases h : init.length = s.mesh.triangles.length <;> simp [h]
  · intro s' h
    rw [set_initial_condition] at h
    by_cases hc : init.length = s.mesh.triangles.length
    · rw [if_neg (by simpa using hc)] at h
      simpa using h.symm
    · rw [if_pos hc] at h
      exact absurd h (by simp)
  · rw [set_bathymetry]
    by_cases h : b.length = s.mesh.triangles.length <;> simp [h]
  · intro s' h
    rw [set_bathymetry] at h
    by_cases hc : b.length = s.mesh.triangles.length
    · rw [if_neg (by simpa using hc)] at h
      simpa using h.symm
    · rw [if_pos hc] at h
      exact absurd h (by simp)
  · rw [set_boundary_condition]
    by_cases h : s.boundary_conditions.length ≤ eid
    · simp [ge_iff_le, h]
    · rw [if_neg (by simpa using h)]
      simp [h]
  · intro s' h
    rw [set_boundary_condition] at h
    by_cases hc : s.boundary_conditions.length ≤ eid
    · rw [if_pos (by simpa using hc)] at h
      exact absurd h (by simp)
    · rw [if_neg (by simpa using hc)] at h
      simpa using h.symm
  · rw [set_boundary_condition]
    by_cases h : (Solver.create mesh params).boundary_conditions.length ≤ eid
    · have h2 : mesh.edges.length ≤ eid := by
        simpa [Solver.create] using h
      simp [ge_iff_le, h, h2]
    · have h2 : ¬ mesh.edges.length ≤ eid := by
        simpa [Solver.create] using h
      rw [if_neg (by simpa using h)]
      simp [h2]

/-- Claim C9 instantiated: on the one-triangle solver, an empty initial
condition and an out-of-range edge id are rejected with an error. -/
theorem claim_C9_witness :
    (∃ e, set_initial_condition frictionSolver [] = Except.error e) ∧
    (∃ e, set_bathymetry frictionSolver [] = Except.error e) ∧
    (∃ e, set_boundary_condition frictionSolver 0 {} = Except.error e) :=
  ⟨(claim_C9.1 frictionSolver []).1.mpr (by simp [frictionSolver, frictionMesh]),
   (claim_C9.2.1 frictionSolver []).1.mpr (by simp [frictionSolver, frictionMesh]),
   (claim_C9.2.2.1 frictionSolver 0 {}).1.mpr (by simp [frictionSolver])⟩

theorem mem_enum_getD {α : Type _} [Inhabited α] {l : List α} {p : ℕ × α}
    (h : p ∈ l.enum) : p.1 < l.length ∧ l.getD p.1 default = p.2 := by
  obtain ⟨i, a⟩ := p
  rw [List.mk_mem_enum_iff_getElem?] at h
  refine ⟨(List.getElem?_eq_some_iff.mp h).1, ?_⟩
  simp [List.getD_eq_getElem?_getD, h]

theorem edge_flux_agree (s1 s2 : Solver) (hp : s1.params = s2.params)
    (hs : s1.state = s2.state) (p : ℕ × Edge)
    (hbc : p.2.tri1 < 0 → s1.boundary_conditions.getD p.1 default =
      s2.boundary_conditions.getD p.1 default) :
    edge_flux s1 p = edge_flux s2 p := by
  simp only [edge_flux, apply_boundary_condition, hp, hs]
  by_cases h1 : p.2.tri1 ≥ 0
  · simp [h1]
  · have hb := hbc (by omega)
    simp only [List.getD_eq_getElem?_getD] at hb
    simp [h1, hb]

theorem flux_edge_update_agree (s1 s2 : Solver) (dt : ℝ)
    (hm : s1.mesh = s2.mesh) (hp : s1.params = s2.params)
    (hs : s1.state = s2.state) (res : List State) (p : ℕ × Edge)
    (hbc : p.2.tri1 < 0 → s1.boundary_conditions.getD p.1 default =
      s2.boundary_conditions.getD p.1 default) :
    flux_edge_update s1 dt res p = flux_edge_update s2 dt res p := by
  have hef := edge_flux_agree s1 s2 hp hs p hbc
  simp only [flux_edge_update, hef, hm]

theorem compute_fluxes_agree (s1 s2 : Solver) (dt : ℝ)
    (hm : s1.mesh = s2.mesh) (hp : s1.params = s2.params)
    (hs : s1.state = s2.state)
    (hbc : ∀ i, i < s1.mesh.edges.length →
      (s1.mesh.edges.getD i default).tri1 < 0 →
      s1.boundary_conditions.getD i default =
        s2.boundary_conditions.getD i default)
    (res : List State) :
    compute_fluxes s1 dt res = compute_fluxes s2 dt res := by
  rw [compute_fluxes, compute_fluxes, ← hm]
  apply List.foldl_ext
  intro acc p hpmem
  obtain ⟨hlt, hget⟩ := mem_enum_getD hpmem
  refine flux_edge_update_agree s1 s2 dt hm hp hs acc p (fun hneg => ?_)
  exact hbc p.1 hlt (by rw [hget]; exact hneg)

theorem compute_source_terms_agree (s1 s2 : Solver) (hp : s1.params = s2.params) :
    compute_source_terms s1 = compute_source_terms s2 := by
  funext st
  rw [compute_source_terms, compute_source_terms, hp]

theorem step_same_except (s1 s2 : Solver) (h : same_except_interior_bcs s1 s2)
    (dt : ℝ) : same_except_interior_bcs (step s1 dt) (step s2 dt) := by
  obtain ⟨hm, hp, hs, hsn, hb, ht, hc, hbc⟩ := h
  have hres : step_residuals s1 dt = step_residuals s2 dt := by
    rw [step_residuals, step_residuals, apply_source_terms, apply_source_terms,
      compute_source_terms_agree s1 s2 hp, hs,
      compute_fluxes_agree s1 s2 dt hm hp hs hbc]
  refine ⟨hm, hp, ?_, hsn, hb, ?_, ?_, ?_⟩
  · show update_state s1 _ = update_state s2 _
    rw [update_state, update_state, hres, hp, hs]
  · show s1.current_time + dt = s2.current_time + dt
    rw [ht]
  · show s1.step_count + 1 = s2.step_count + 1
    rw [hc]
  · exact fun i hi hbd => hbc i hi hbd

theorem compute_time_step_agree (s1 s2 : Solver) (hm : s1.mesh = s2.mesh)
    (hp : s1.params = s2.params) (hs : s1.state = s2.state) :
    compute_time_step s1 = compute_time_step s2 := by
  have hmax : max_wave_speed s1 = max_wave_speed s2 := by
    rw [max_wave_speed, max_wave_speed, hp, hs]
  rw [compute_time_step, compute_time_step, hmax, hp, hm]

theorem advance_same_except (t : ℝ) (fuel : ℕ) :
    ∀ s1 s2 : Solver, same_except_interior_bcs s1 s2 →
    same_except_interior_bcs (advance_to_time s1 t fuel)
      (advance_to_time s2 t fuel) := by
  induction fuel with
  | zero => exact fun s1 s2 h => h
  | succ n ih =>
      intro s1 s2 h
      have hdt : compute_time_step s1 = compute_time_step s2 :=
        compute_time_step_agree s1 s2 h.1 h.2.1 h.2.2.1
      have ht := h.2.2.2.2.2.1
      rw [advance_to_time, advance_to_time, hdt, ht]
      by_cases hlt : s2.current_time < t
      · rw [if_pos hlt, if_pos hlt]
        exact ih _ _ (step_same_except s1 s2 h _)
      · rw [if_neg hlt, if_neg hlt]
        exact h

theorem run_commands_same_except (cmds : List SolverCmd) :
    ∀ s1 s2 : Solver, same_except_interior_bcs s1 s2 →
    same_except_interior_bcs (run_commands cmds s1) (run_commands cmds s2) := by
  induction cmds with
  | nil => exact fun s1 s2 h => h
  | cons c rest ih =>
      intro s1 s2 h
      rw [run_commands, List.foldl_cons, run_commands] at *
      cases c with
      | step dt => exact ih _ _ (step_same_except s1 s2 h dt)
      | advance t fuel => exact ih _ _ (advance_same_except t fuel s1 s2 h)

/-- Claim C10: `set_boundary_condition` accepts every in-range edge id —
including ids of interior edges — and conditions stored on interior edges
are never consulted: two solvers identical except in the conditions stored
for two-triangle edges produce identical states, times and step counts
under any identical sequence of `step` / `advance_to_time` calls. -/
theorem claim_C10 :
    (∀ (s : Solver) (eid : ℕ) (bc : BoundaryCondition),
      eid < s.boundary_conditions.length →
      ∃ s', set_boundary_condition s eid bc = Except.ok s') ∧
    (∀ (cmds : List SolverCmd) (s1 s2 : Solver),
      same_except_interior_bcs s1 s2 →
      (run_commands cmds s1).state = (run_commands cmds s2).state ∧
      (run_commands cmds s1).current_time = (run_commands cmds s2).current_time ∧
      (run_commands cmds s1).step_count = (run_commands cmds s2).step_count) := by
  constructor
  · intro s eid bc hlt
    rw [set_boundary_condition, if_neg (by simpa using hlt)]
    exact ⟨_, rfl⟩
  · intro cmds s1 s2 h
    have hr := run_commands_same_except cmds s1 s2 h
    exact ⟨hr.2.2.1, hr.2.2.2.2.2.1, hr.2.2.2.2.2.2.1⟩

theorem create_rectangular_unit : create_rectangular 1 1 1 1 = unitMesh := by
  have h1 : Real.sqrt 1 = 1 := Real.sqrt_one
  norm_num [create_rectangular, build_connectivity, compute_geometry,
    compute_triangle_geometry, compute_edge_geometry, find_or_create_edge,
    mapLookup, edge_key, sidePairs, unitMesh, Point.norm, Point.cross,
    List.range_succ, List.enum, List.enumFrom, h1]
  and_intros
  all_goals ext
  all_goals norm_num

/-- The HLL flux between two equal states is the physical flux of that
state: in every branch the formula collapses to `flux_left`. -/
theorem hll_flux_self (params : SolverParameters) (s : State) (n : Point)
    (g : ℝ) :
    compute_hll_flux params s s n g = physical_flux params s n g := by
  simp only [compute_hll_flux, compute_wave_speeds_def, min_self, max_self]
  set u := (if s.h > params.dry_tolerance then
    (s.hu * n.x + s.hv * n.y) / s.h else 0) with hu_def
  set c := Real.sqrt (g * max s.h params.min_depth) with hc_def
  split_ifs with hA hB
  · rfl
  · rfl
  · have h1 : u - c < 0 := lt_of_not_ge hA
    have h2 : 0 < u + c := not_le.mp hB
    have hne : u - c - (u + c) ≠ 0 := by linarith
    ext
    · simp only [State.sdiv_h, State.add_h, State.sub_h, State.smul_h,
        sub_self, zero_mul, add_zero]
      rw [div_eq_iff hne]
      ring
    · simp only [State.sdiv_hu, State.add_hu, State.sub_hu, State.smul_hu,
        sub_self, zero_mul, add_zero]
      rw [div_eq_iff hne]
      ring
    · simp only [State.sdiv_hv, State.add_hv, State.sub_hv, State.smul_hv,
        sub_self, zero_mul, add_zero]
      rw [div_eq_iff hne]
      ring

/-- A `Wall` ghost of a zero-momentum state is the state itself. -/
theorem apply_wall_zero_momentum (s : Solver) (hh : ℝ) (i : ℕ) (n : Point)
    (hbc : (s.boundary_conditions.getD i default).type = BoundaryType.Wall) :
    apply_boundary_condition s ⟨hh, 0, 0⟩ i n = ⟨hh, 0, 0⟩ := by
  simp only [apply_boundary_condition]
  rw [hbc]
  ext <;> simp

/-- The physical flux of a zero-momentum state: no mass flux, pure pressure
momentum flux along the normal. -/
theorem physical_flux_zero_momentum (params : SolverParameters) (hh : ℝ)
    (n : Point) (g : ℝ) :
    physical_flux params ⟨hh, 0, 0⟩ n g =
      ⟨0, 0.5 * g * hh * hh * n.x, 0.5 * g * hh * hh * n.y⟩ := by
  simp only [physical_flux]
  ext <;> simp

theorem default_bc_type : (default : BoundaryCondition).type = BoundaryType.Wall := rfl

theorem wallBcs_type (i : ℕ) :
    (wallBcs.getD i default).type = BoundaryType.Wall := by
  rw [wallBcs, List.getD_eq_getElem?_getD, List.getElem?_replicate]
  by_cases h : i < 5
  · rw [if_pos h]
    rfl
  · rw [if_neg h]
    rfl

theorem State.mk_add_mk (a b c d e f : ℝ) :
    (⟨a, b, c⟩ : State) + ⟨d, e, f⟩ = ⟨a + d, b + e, c + f⟩ := rfl

theorem State.mk_sub_mk (a b c d e f : ℝ) :
    (⟨a, b, c⟩ : State) - ⟨d, e, f⟩ = ⟨a - d, b - e, c - f⟩ := rfl

theorem State.mk_smul (a b c s : ℝ) :
    (⟨a, b, c⟩ : State).smul s = ⟨a * s, b * s, c * s⟩ := rfl

theorem State.mk_sdiv (a b c s : ℝ) :
    (⟨a, b, c⟩ : State).sdiv s = ⟨a / s, b / s, c / s⟩ := rfl

/-- Claim C4: the scheme is not well-balanced.  `stillSolver` is a
still-water state (`h + z_b = 2` constant, zero momentum, wall boundaries)
on `create_rectangular 1 1 1 1`, yet one step of size `1/10` changes cell
0's x-momentum (the stored edge normals are not oriented outward from
`triangles[0]`, so the pressure contributions around a cell do not cancel,
and there is no bed-slope source term at all). -/
theorem claim_C4_theorem :
    ((step stillSolver (1/10)).state.getD 0 default).hu ≠
      (stillSolver.state.getD 0 default).hu := by
  have hbc : ∀ (i : ℕ) (n : Point),
      apply_boundary_condition stillSolver ⟨2, 0, 0⟩ i n = ⟨2, 0, 0⟩ :=
    fun i n => apply_wall_zero_momentum stillSolver 2 i n (wallBcs_type i)
  have hhll : ∀ n : Point,
      compute_hll_flux stillSolver.params ⟨2, 0, 0⟩ ⟨2, 0, 0⟩ n
        stillSolver.params.gravity = ⟨0, 4 * n.x, 4 * n.y⟩ := by
    intro n
    rw [hll_flux_self, physical_flux_zero_momentum]
    ext <;> norm_num [stillSolver]
  have h2 : Real.sqrt 2 ≠ 0 := by positivity
  have hmesh : stillSolver.mesh = unitMesh := create_rectangular_unit
  have hstate : stillSolver.state = [⟨2, 0, 0⟩, ⟨2, 0, 0⟩] := rfl
  have hsrc0 : ∀ st, compute_source_terms stillSolver st = ⟨0, 0, 0⟩ := by
    intro st
    rw [compute_source_terms, if_neg]
    rintro ⟨hf, -⟩
    norm_num [stillSolver] at hf
  have hdry : stillSolver.params.dry_tolerance = 1e-8 := rfl
  show ((update_state stillSolver (step_residuals stillSolver (1/10))).getD 0
    default).hu ≠ _
  rw [step_residuals, compute_fluxes, hmesh]
  norm_num [unitMesh, List.enum, List.enumFrom, flux_edge_update, edge_flux,
    hmesh, hstate, hbc, hhll, apply_source_terms, update_state, hsrc0, hdry,
    State.mk_add_mk, State.mk_sub_mk, State.mk_smul, State.mk_sdiv, h2]
  intro hcon
  field_simp at hcon
  have hpos : 0 < Real.sqrt 2 := Real.sqrt_pos.mpr (by norm_num)
  linarith

/-- Claim C6: in `create_rectangular 1 1 1 1` the interior (diagonal) edge,
edge 1, has `triangles = (0, 1)` but its stored unit normal has strictly
negative dot product with the vector from triangle 0's centroid to triangle
1's centroid: the normal points from `triangles[1]` toward `triangles[0]`,
the opposite of the claimed convention (normals are oriented by the
canonical node order, not by adjacency). -/
theorem claim_C6_theorem :
    ((create_rectangular 1 1 1 1).edges.getD 1 default).tri0 = 0 ∧
    ((create_rectangular 1 1 1 1).edges.getD 1 default).tri1 = 1 ∧
    ((create_rectangular 1 1 1 1).edges.getD 1 default).normal.dot
      (((create_rectangular 1 1 1 1).triangles.getD 1 default).centroid -
       ((create_rectangular 1 1 1 1).triangles.getD 0 default).centroid) < 0 := by
  rw [create_rectangular_unit]
  refine ⟨rfl, rfl, ?_⟩
  have hpos : 0 < Real.sqrt 2 := Real.sqrt_pos.mpr (by norm_num)
  have hneg : -1 / Real.sqrt 2 * (1/3) < 0 := by
    apply mul_neg_of_neg_of_pos
    · exact div_neg_of_neg_of_pos (by norm_num) hpos
    · norm_num
  norm_num [unitMesh, Point.dot]
  linarith

theorem drySolver_bcs_type (i : ℕ) :
    (drySolver.boundary_conditions.getD i default).type = BoundaryType.Wall :=
  wallBcs_type i

/-- Claim C2: exact mass conservation fails.  `drySolver` has nonnegative
depths (`1/2000` in both cells) and wall boundaries everywhere, yet one step
zeroes both cells through the positivity clamp (`1/2000` is below the dry
tolerance `1/1000`), destroying the water volume `1/2000`. -/
theorem claim_C2_counterexample :
    total_mass (step drySolver (1/10)) ≠ total_mass drySolver := by
  have hbc : ∀ (i : ℕ) (n : Point),
      apply_boundary_condition drySolver ⟨1/2000, 0, 0⟩ i n = ⟨1/2000, 0, 0⟩ :=
    fun i n => apply_wall_zero_momentum drySolver (1/2000) i n (drySolver_bcs_type i)
  have hhll : ∀ n : Point,
      compute_hll_flux drySolver.params ⟨1/2000, 0, 0⟩ ⟨1/2000, 0, 0⟩ n
        drySolver.params.gravity =
        ⟨0, (1/4000000) * n.x, (1/4000000) * n.y⟩ := by
    intro n
    rw [hll_flux_self, physical_flux_zero_momentum]
    ext <;> norm_num [drySolver]
  have hmesh : drySolver.mesh = unitMesh := create_rectangular_unit
  have hstate : drySolver.state = [⟨1/2000, 0, 0⟩, ⟨1/2000, 0, 0⟩] := rfl
  have hsrc0 : ∀ st, compute_source_terms drySolver st = ⟨0, 0, 0⟩ := by
    intro st
    rw [compute_source_terms, if_neg]
    rintro ⟨hf, -⟩
    norm_num [drySolver] at hf
  have hdry : drySolver.params.dry_tolerance = 1/1000 := rfl
  have hupd : update_state drySolver (step_residuals drySolver (1/10)) =
      [⟨0, 0, 0⟩, ⟨0, 0, 0⟩] := by
    rw [step_residuals, compute_fluxes, hmesh]
    norm_num [unitMesh, List.enum, List.enumFrom, flux_edge_update, edge_flux,
      hmesh, hstate, hbc, hhll, apply_source_terms, update_state, hsrc0, hdry,
      State.mk_add_mk, State.mk_sub_mk, State.mk_smul, State.mk_sdiv,
      List.replicate_succ, List.replicate_zero, List.set_cons_zero,
      List.set_cons_succ]
  have hstep : total_mass (step drySolver (1/10)) =
      ((update_state drySolver (step_residuals drySolver (1/10))).zip
        drySolver.mesh.triangles).foldl (fun m p => m + p.1.h * p.2.area) 0 := rfl
  rw [hstep, hupd, total_mass, hstate, hmesh]
  norm_num [unitMesh]

/-- Claim C10 instantiated: two solvers on the unit mesh differing only in
the condition stored for the interior diagonal edge produce identical
state, time and step count after a step. -/
theorem claim_C10_witness :
    same_except_interior_bcs stillSolver stillSolverAltBc ∧
    ((run_commands [SolverCmd.step (1/10)] stillSolver).state =
      (run_commands [SolverCmd.step (1/10)] stillSolverAltBc).state ∧
     (run_commands [SolverCmd.step (1/10)] stillSolver).current_time =
      (run_commands [SolverCmd.step (1/10)] stillSolverAltBc).current_time ∧
     (run_commands [SolverCmd.step (1/10)] stillSolver).step_count =
      (run_commands [SolverCmd.step (1/10)] stillSolverAltBc).step_count) := by
  have hR : same_except_interior_bcs stillSolver stillSolverAltBc := by
    refine ⟨rfl, rfl, rfl, rfl, rfl, rfl, rfl, ?_⟩
    intro i hi hb
    rw [show stillSolver.mesh = unitMesh from create_rectangular_unit] at hi hb
    norm_num [unitMesh] at hi
    interval_cases i
    · norm_num [stillSolver, stillSolverAltBc, wallBcs, altBcs,
        List.getD_eq_getElem?_getD, List.getElem?_set, List.getElem?_replicate]
    · norm_num [unitMesh] at hb
    · norm_num [stillSolver, stillSolverAltBc, wallBcs, altBcs,
        List.getD_eq_getElem?_getD, List.getElem?_set, List.getElem?_replicate]
    · norm_num [stillSolver, stillSolverAltBc, wallBcs, altBcs,
        List.getD_eq_getElem?_getD, List.getElem?_set, List.getElem?_replicate]
    · norm_num [stillSolver, stillSolverAltBc, wallBcs, altBcs,
        List.getD_eq_getElem?_getD, List.getElem?_set, List.getElem?_replicate]
  exact ⟨hR, claim_C10.2 [SolverCmd.step (1/10)] stillSolver stillSolverAltBc hR⟩

theorem zip_mass_foldl (states : List State) (tris : List Triangle) (a : ℝ) :
    (states.zip tris).foldl (fun mass p => mass + p.1.h * p.2.area) a =
      a + ∑ i in Finset.range (min states.length tris.length),
        (states.getD i default).h * (tris.getD i default).area := by
  induction states generalizing tris a with
  | nil => simp
  | cons st sts ih =>
    cases tris with
    | nil => simp
    | cons t ts =>
      simp only [List.zip_cons_cons, List.foldl_cons]
      rw [ih]
      simp only [List.length_cons, min_add_add_right, Finset.sum_range_succ',
        List.getD_cons_succ, List.getD_cons_zero]
      ring

theorem total_mass_eq_cell_mass (s : Solver)
    (hlen : s.state.length = s.mesh.triangles.length) :
    total_mass s = cell_mass s.mesh.triangles s.state := by
  rw [total_mass, zip_mass_foldl]
  simp only [cell_mass]
  rw [hlen, min_self, zero_add]

theorem mass_sum_set (tris : List Triangle) (res : List State) (i : ℕ)
    (v : State) (hi : i < res.length) :
    cell_mass tris (res.set i v) = cell_mass tris res +
      (v.h - (res.getD i default).h) * (tris.getD i default).area := by
  simp only [cell_mass, List.length_set]
  have hterm : ∀ j ∈ Finset.range res.length,
      ((res.set i v).getD j default).h * (tris.getD j default).area =
        (res.getD j default).h * (tris.getD j default).area +
          (if j = i then
            (v.h - (res.getD i default).h) * (tris.getD i default).area
           else 0) := by
    intro j hj
    rw [Finset.mem_range] at hj
    by_cases h : j = i
    · subst h
      rw [if_pos rfl, List.getD_eq_getElem?_getD, List.getElem?_set,
        if_pos rfl, if_pos hi]
      simp only [Option.getD_some]
      ring
    · rw [if_neg h, List.getD_eq_getElem?_getD, List.getElem?_set,
        if_neg (fun hc => h hc.symm), ← List.getD_eq_getElem?_getD]
      ring
  rw [Finset.sum_congr rfl hterm, Finset.sum_add_distrib,
    Finset.sum_ite_eq' (Finset.range res.length) i
      (fun _ => (v.h - (res.getD i default).h) * (tris.getD i default).area),
    if_pos (Finset.mem_range.mpr hi)]

theorem compute_source_terms_h (s : Solver) (st : State) :
    (compute_source_terms s st).h = 0 := by
  rw [compute_source_terms]
  split_ifs <;> rfl

theorem cell_mass_replicate_zero (tris : List Triangle) (n : ℕ) :
    cell_mass tris (List.replicate n ⟨0, 0, 0⟩) = 0 := by
  rw [cell_mass]
  apply Finset.sum_eq_zero
  intro i hi
  rw [Finset.mem_range, List.length_replicate] at hi
  rw [List.getD_eq_getElem?_getD, List.getElem?_replicate, if_pos hi]
  simp

theorem cell_mass_zip_add (tris : List Triangle) (a b : List State)
    (hlen : b.length = a.length) :
    cell_mass tris (List.zipWith (fun x y => x + y) a b) =
      cell_mass tris a + cell_mass tris b := by
  simp only [cell_mass, List.length_zipWith, hlen, min_self]
  rw [← Finset.sum_add_distrib]
  apply Finset.sum_congr rfl
  intro j hj
  rw [Finset.mem_range] at hj
  rw [getD_zipWith _ _ _ _ _ default default hj (by rw [hlen]; exact hj)]
  simp only [State.add_h]
  ring

theorem cell_mass_apply_source (s : Solver) (dt : ℝ) (res : List State)
    (hlen : res.length = s.state.length) :
    cell_mass s.mesh.triangles (apply_source_terms s dt res) =
      cell_mass s.mesh.triangles res := by
  simp only [apply_source_terms, cell_mass, List.length_zipWith, hlen,
    min_self]
  apply Finset.sum_congr rfl
  intro j hj
  rw [Finset.mem_range] at hj
  rw [getD_zipWith _ _ _ _ _ default default (by rw [hlen]; exact hj) hj]
  simp only [State.add_h, State.smul_h, compute_source_terms_h, zero_mul,
    add_zero]

theorem cell_mass_update_state (s : Solver) (res : List State)
    (hcl : ∀ i, i < s.state.length →
      s.params.dry_tolerance ≤
        (s.state.getD i default + res.getD i default).h ∨
      (s.state.getD i default + res.getD i default).h = 0) :
    cell_mass s.mesh.triangles (update_state s res) =
      cell_mass s.mesh.triangles
        (List.zipWith (fun x y => x + y) s.state res) := by
  simp only [update_state, cell_mass, List.length_zipWith]
  apply Finset.sum_congr rfl
  intro j hj
  rw [Finset.mem_range, lt_min_iff] at hj
  rw [getD_zipWith _ _ _ _ _ default default hj.1 hj.2,
    getD_zipWith _ _ _ _ _ default default hj.1 hj.2]
  by_cases hc : (s.state.getD j default + res.getD j default).h <
      s.params.dry_tolerance
  · rcases hcl j hj.1 with hge | h0
    · exact absurd hc (not_lt.mpr hge)
    · rw [if_pos hc, h0]
  · rw [if_neg hc]

/-- The mass component of the HLL flux between a wet state and its wall
reflection across a unit normal vanishes exactly: the reflected normal
velocity is the negation of the interior one, so the wave speeds satisfy
`sl = -sr` and every branch of the flux formula has zero mass flux. -/
theorem hll_wall_reflect_h (params : SolverParameters) (hh u v nx ny g : ℝ)
    (hwet : hh > params.dry_tolerance) (hhne : hh ≠ 0)
    (hn : nx ^ 2 + ny ^ 2 = 1) :
    (compute_hll_flux params ⟨hh, hh * u, hh * v⟩
      ⟨hh, hh * (u - 2 * (u * nx + v * ny) * nx),
           hh * (v - 2 * (u * nx + v * ny) * ny)⟩ ⟨nx, ny⟩ g).h = 0 := by
  have hul : (hh * u * nx + hh * v * ny) / hh = u * nx + v * ny := by
    field_simp
    ring
  have hur : (hh * (u - 2 * (u * nx + v * ny) * nx) * nx +
      hh * (v - 2 * (u * nx + v * ny) * ny) * ny) / hh =
      -(u * nx + v * ny) := by
    rw [div_eq_iff hhne]
    linear_combination (-2 : ℝ) * hh * (u * nx + v * ny) * hn
  simp only [compute_hll_flux, compute_wave_speeds_def, physical_flux]
  simp only [if_pos hwet]
  rw [hul, hur]
  set U := u * nx + v * ny with hU
  set c := Real.sqrt (g * max hh params.min_depth) with hc
  set sl := min (U - c) (-U - c) with hsl
  set sr := max (U + c) (-U + c) with hsr
  have hslr : sl = -sr := by
    rw [hsl, hsr, show U - c = -(-U + c) by ring,
      show -U - c = -(U + c) by ring, min_neg_neg, max_comm]
  split_ifs with hA hB
  · have hc0 : 0 ≤ c := by rw [hc]; exact Real.sqrt_nonneg _
    have h1 : sl ≤ U - c := by rw [hsl]; exact min_le_left _ _
    have h2 : sl ≤ -U - c := by rw [hsl]; exact min_le_right _ _
    have hU0 : U = 0 := by linarith
    dsimp only
    linear_combination (-hh) * hU + hh * hU0
  · exfalso
    rw [hslr] at hA
    push_neg at hA
    linarith
  · simp only [State.sdiv_h, State.add_h, State.sub_h, State.smul_h]
    rw [div_eq_zero_iff]
    left
    rw [hslr]
    linear_combination (2 * sr * hh * (nx ^ 2 + ny ^ 2)) * hU +
      (2 * sr * hh * (u * nx + v * ny)) * hn

/-- The flux `compute_fluxes` assigns to a wall boundary edge carries no
mass: its `h` component is exactly zero, provided the stored normal is unit
and the owning cell is wet or at rest. -/
theorem wall_edge_flux_h (s : Solver) (p : ℕ × Edge)
    (hdry : 0 ≤ s.params.dry_tolerance)
    (hb : ¬p.2.tri1 ≥ 0)
    (hbc : (s.boundary_conditions.getD p.1 default).type = BoundaryType.Wall)
    (hn : p.2.normal.x ^ 2 + p.2.normal.y ^ 2 = 1)
    (hst : s.params.dry_tolerance < (s.state.getD p.2.tri0.toNat default).h ∨
      ((s.state.getD p.2.tri0.toNat default).hu = 0 ∧
       (s.state.getD p.2.tri0.toNat default).hv = 0)) :
    (edge_flux s p).h = 0 := by
  simp only [edge_flux, if_neg hb]
  rcases hst with hwet | ⟨hu0, hv0⟩
  · set L := s.state.getD p.2.tri0.toNat default with hL
    have hhne : L.h ≠ 0 := ne_of_gt (lt_of_le_of_lt hdry hwet)
    have hghost : apply_boundary_condition s L p.1 p.2.normal =
        ⟨L.h,
         L.h * (L.hu / L.h -
           2 * (L.hu / L.h * p.2.normal.x + L.hv / L.h * p.2.normal.y) *
             p.2.normal.x),
         L.h * (L.hv / L.h -
           2 * (L.hu / L.h * p.2.normal.x + L.hv / L.h * p.2.normal.y) *
             p.2.normal.y)⟩ := by
      simp only [apply_boundary_condition]
      rw [hbc]
      ext <;> simp [if_pos hwet]
    have hLeq : L = ⟨L.h, L.h * (L.hu / L.h), L.h * (L.hv / L.h)⟩ := by
      ext
      · rfl
      · show L.hu = L.h * (L.hu / L.h)
        rw [mul_comm, div_mul_cancel₀ _ hhne]
      · show L.hv = L.h * (L.hv / L.h)
        rw [mul_comm, div_mul_cancel₀ _ hhne]
    rw [hghost]
    have hres := hll_wall_reflect_h s.params L.h (L.hu / L.h) (L.hv / L.h)
      p.2.normal.x p.2.normal.y s.params.gravity hwet hhne hn
    rw [← hLeq] at hres
    exact hres
  · have hLeq : s.state.getD p.2.tri0.toNat default =
        ⟨(s.state.getD p.2.tri0.toNat default).h, 0, 0⟩ := by
      ext
      · rfl
      · exact hu0
      · exact hv0
    rw [hLeq, apply_wall_zero_momentum s _ p.1 _ hbc, hll_flux_self,
      physical_flux_zero_momentum]

/-- One edge-loop iteration of `compute_fluxes` preserves the mass
functional: the two contributions of an interior edge cancel between the
adjacent cells, and a wall boundary flux carries no mass at all. -/
theorem mass_flux_edge (s : Solver) (dt : ℝ) (res : List State)
    (p : ℕ × Edge) (hdry : 0 ≤ s.params.dry_tolerance)
    (hlen : res.length = s.state.length) (hok : edge_mass_ok s p) :
    cell_mass s.mesh.triangles (flux_edge_update s dt res p) =
      cell_mass s.mesh.triangles res := by
  obtain ⟨hok0, hok1, hokb⟩ := hok
  simp only [flux_edge_update]
  by_cases h0 : p.2.tri0 < 0
  · rw [if_pos h0]
  · rw [if_neg h0]
    have h0' : 0 ≤ p.2.tri0 := le_of_not_lt h0
    obtain ⟨hL, hAL⟩ := hok0 h0'
    by_cases h1 : p.2.tri1 ≥ 0
    · obtain ⟨hR, hAR⟩ := hok1 h1
      rw [if_pos h1, mass_sum_set, mass_sum_set]
      · simp only [State.add_h, State.sub_h, State.sdiv_h, State.smul_h]
        rw [List.getD_eq_getElem?_getD] at hAL hAR
        field_simp [hAL, hAR]
        ring
      · rw [hlen]
        exact hL
      · rw [List.length_set, hlen]
        exact hR
    · rw [if_neg h1, mass_sum_set]
      · have hfh : (edge_flux s p).h = 0 :=
          wall_edge_flux_h s p hdry h1 (hokb h0' (lt_of_not_ge h1)).1
            (hokb h0' (lt_of_not_ge h1)).2.1 (hokb h0' (lt_of_not_ge h1)).2.2
        simp only [State.sub_h, State.sdiv_h, State.smul_h, hfh]
        ring
      · rw [hlen]
        exact hL

/-- The whole edge loop of `compute_fluxes` preserves the mass functional
when every edge satisfies the mass side conditions. -/
theorem mass_flux_fold (s : Solver) (dt : ℝ) (l : List (ℕ × Edge))
    (hdry : 0 ≤ s.params.dry_tolerance) :
    ∀ res : List State, res.length = s.state.length →
      (∀ p ∈ l, edge_mass_ok s p) →
      cell_mass s.mesh.triangles (l.foldl (flux_edge_update s dt) res) =
        cell_mass s.mesh.triangles res := by
  induction l with
  | nil => intro res _ _; rfl
  | cons p rest ih =>
    intro res hlen hok
    rw [List.foldl_cons,
      ih (flux_edge_update s dt res p)
        (by rw [length_flux_edge_update]; exact hlen)
        (fun q hq => hok q (List.mem_cons_of_mem p hq)),
      mass_flux_edge s dt res p hdry hlen (hok p (List.mem_cons_self p rest))]

/-- Claim C2 (amended): one `step(dt)` call conserves the total mass
`Σ h_i·area_i` exactly, provided the positivity clamp does not fire on a
cell with leftover water — i.e. every pre-clamp depth is either above the
dry tolerance or exactly zero — and the mesh is well-formed for mass
accounting: state and triangle counts agree, the edges' triangle indices
are in range with nonzero areas, every boundary edge has a wall condition
and a unit normal, and every boundary cell is wet or at rest.  The
unconditional claim is false: the clamp erases the water of any cell whose
depth falls strictly between `0` and the dry tolerance. -/
theorem claim_C2_amended (s : Solver) (dt : ℝ)
    (hdry : 0 ≤ s.params.dry_tolerance)
    (hlen : s.state.length = s.mesh.triangles.length)
    (hedges : ∀ p ∈ s.mesh.edges.enum, edge_mass_ok s p)
    (hclamp : ∀ i, i < s.state.length →
      s.params.dry_tolerance ≤
        ((updated_before_clamp s dt).getD i default).h ∨
      ((updated_before_clamp s dt).getD i default).h = 0) :
    total_mass (step s dt) = total_mass s := by
  have hlen2 : (update_state s (step_residuals s dt)).length =
      s.state.length := by
    simp only [update_state, List.length_zipWith, length_step_residuals,
      min_self]
  have hlen' : (step s dt).state.length =
      (step s dt).mesh.triangles.length := by
    show (update_state s (step_residuals s dt)).length =
      s.mesh.triangles.length
    rw [hlen2, hlen]
  have hcl : ∀ i, i < s.state.length →
      s.params.dry_tolerance ≤
        (s.state.getD i default + (step_residuals s dt).getD i default).h ∨
      (s.state.getD i default + (step_residuals s dt).getD i default).h =
        0 := by
    intro i hi
    have h2 := hclamp i hi
    simp only [updated_before_clamp] at h2
    rw [getD_zipWith _ _ _ _ _ default default hi
      (by rw [length_step_residuals]; exact hi)] at h2
    exact h2
  have hflen : (compute_fluxes s dt (List.replicate s.state.length
      (⟨0, 0, 0⟩ : State))).length = s.state.length := by
    rw [compute_fluxes, length_foldl_flux, List.length_replicate]
  have hres0 : cell_mass s.mesh.triangles (step_residuals s dt) = 0 := by
    rw [step_residuals, cell_mass_apply_source s dt _ hflen, compute_fluxes,
      mass_flux_fold s dt s.mesh.edges.enum hdry
        (List.replicate s.state.length ⟨0, 0, 0⟩)
        (by rw [List.length_replicate]) hedges,
      cell_mass_replicate_zero]
  calc total_mass (step s dt)
      = cell_mass s.mesh.triangles (update_state s (step_residuals s dt)) :=
        total_mass_eq_cell_mass (step s dt) hlen'
    _ = cell_mass s.mesh.triangles
        (List.zipWith (fun x y => x + y) s.state (step_residuals s dt)) :=
        cell_mass_update_state s (step_residuals s dt) hcl
    _ = cell_mass s.mesh.triangles s.state +
        cell_mass s.mesh.triangles (step_residuals s dt) :=
        cell_mass_zip_add s.mesh.triangles s.state (step_residuals s dt)
          (length_step_residuals s dt)
    _ = cell_mass s.mesh.triangles s.state := by rw [hres0, add_zero]
    _ = total_mass s := (total_mass_eq_cell_mass s hlen).symm

theorem stillSolver_mesh : stillSolver.mesh = unitMesh := create_rectangular_unit

/-- Every enumerated edge of `stillSolver` satisfies the mass side
conditions: indices in range, areas `1/2`, wall conditions, unit normals,
cells at rest. -/
theorem stillSolver_edges_ok :
    ∀ p ∈ stillSolver.mesh.edges.enum, edge_mass_ok stillSolver p := by
  intro p hp
  rw [stillSolver_mesh] at hp
  simp only [unitMesh, List.enum, List.enumFrom, List.mem_cons,
    List.not_mem_nil, or_false] at hp
  have hstlen : stillSolver.state.length = 2 := rfl
  have harea : ∀ j, j < 2 →
      (stillSolver.mesh.triangles.getD j default).area ≠ 0 := by
    intro j hj
    rw [stillSolver_mesh]
    interval_cases j <;> norm_num [unitMesh]
  have hbcW : ∀ i : ℕ, (stillSolver.boundary_conditions.getD i default).type =
      BoundaryType.Wall := wallBcs_type
  have hmom : ∀ j : ℕ, (stillSolver.state.getD j default).hu = 0 ∧
      (stillSolver.state.getD j default).hv = 0 := by
    intro j
    rcases j with _ | _ | n <;> exact ⟨rfl, rfl⟩
  rcases hp with rfl | rfl | rfl | rfl | rfl
  · exact ⟨fun _ => ⟨by rw [hstlen]; decide, harea _ (by decide)⟩,
      fun h1 => absurd h1 (by decide),
      fun _ _ => ⟨hbcW _, by norm_num, Or.inr (hmom _)⟩⟩
  · exact ⟨fun _ => ⟨by rw [hstlen]; decide, harea _ (by decide)⟩,
      fun _ => ⟨by rw [hstlen]; decide, harea _ (by decide)⟩,
      fun _ hb => absurd hb (by decide)⟩
  · exact ⟨fun _ => ⟨by rw [hstlen]; decide, harea _ (by decide)⟩,
      fun h1 => absurd h1 (by decide),
      fun _ _ => ⟨hbcW _, by norm_num, Or.inr (hmom _)⟩⟩
  · exact ⟨fun _ => ⟨by rw [hstlen]; decide, harea _ (by decide)⟩,
      fun h1 => absurd h1 (by decide),
      fun _ _ => ⟨hbcW _, by norm_num, Or.inr (hmom _)⟩⟩
  · exact ⟨fun _ => ⟨by rw [hstlen]; decide, harea _ (by decide)⟩,
      fun h1 => absurd h1 (by decide),
      fun _ _ => ⟨hbcW _, by norm_num, Or.inr (hmom _)⟩⟩

/-- The pre-clamp depths of one `stillSolver` step of size `1/10` stay at
`2`: the wall fluxes and the interior flux carry no mass, only momentum. -/
theorem stillSolver_preclamp_h : ∀ i, i < stillSolver.state.length →
    ((updated_before_clamp stillSolver (1/10)).getD i default).h = 2 := by
  have hbc : ∀ (i : ℕ) (n : Point),
      apply_boundary_condition stillSolver ⟨2, 0, 0⟩ i n = ⟨2, 0, 0⟩ :=
    fun i n => apply_wall_zero_momentum stillSolver 2 i n (wallBcs_type i)
  have hhll : ∀ n : Point,
      compute_hll_flux stillSolver.params ⟨2, 0, 0⟩ ⟨2, 0, 0⟩ n
        stillSolver.params.gravity = ⟨0, 4 * n.x, 4 * n.y⟩ := by
    intro n
    rw [hll_flux_self, physical_flux_zero_momentum]
    ext <;> norm_num [stillSolver]
  have h2 : Real.sqrt 2 ≠ 0 := by positivity
  have hstate : stillSolver.state = [⟨2, 0, 0⟩, ⟨2, 0, 0⟩] := rfl
  have hsrc0 : ∀ st, compute_source_terms stillSolver st = ⟨0, 0, 0⟩ := by
    intro st
    rw [compute_source_terms, if_neg]
    rintro ⟨hf, -⟩
    norm_num [stillSolver] at hf
  intro i hi
  rw [show stillSolver.state.length = 2 from rfl] at hi
  rw [updated_before_clamp, step_residuals, compute_fluxes, stillSolver_mesh]
  interval_cases i <;>
    norm_num [unitMesh, List.enum, List.enumFrom, flux_edge_update, edge_flux,
      stillSolver_mesh, hstate, hbc, hhll, apply_source_terms, hsrc0,
      State.mk_add_mk, State.mk_sub_mk, State.mk_smul, State.mk_sdiv, h2,
      List.replicate_succ, List.replicate_zero, List.set_cons_zero,
      List.set_cons_succ]

/-- Claim C2 (amended) instantiated at the still-water solver on the unit
square: one step of size `1/10` with all-wall boundaries preserves the
total mass exactly. -/
theorem claim_C2_amended_witness :
    total_mass (step stillSolver (1/10)) = total_mass stillSolver := by
  apply claim_C2_amended
  · norm_num [stillSolver]
  · rw [stillSolver_mesh]
    rfl
  · exact stillSolver_edges_ok
  · intro i hi
    exact Or.inl (by rw [stillSolver_preclamp_h i hi]; norm_num [stillSolver])

theorem foldl_flatMap {α β γ : Type _} (g : β → List γ) (f : α → γ → α)
    (l : List β) (init : α) :
    (l.flatMap g).foldl f init =
      l.foldl (fun acc x => (g x).foldl f acc) init := by
  induction l generalizing init with
  | nil => rfl
  | cons x xs ih =>
    rw [List.flatMap_cons, List.foldl_append, List.foldl_cons, ih]

theorem countP_flatMap {α β : Type _} (p : β → Bool) (g : α → List β)
    (l : List α) :
    (l.flatMap g).countP p = (l.map (fun x => (g x).countP p)).sum := by
  induction l with
  | nil => rfl
  | cons x xs ih =>
    rw [List.flatMap_cons, List.countP_append, List.map_cons, List.sum_cons,
      ih, Nat.add_comm]

theorem sum_map_flatMap {M α β : Type _} [AddMonoid M] (f : β → M)
    (g : α → List β) (l : List α) :
    ((l.flatMap g).map f).sum = (l.map (fun x => ((g x).map f).sum)).sum := by
  induction l with
  | nil => rfl
  | cons x xs ih =>
    rw [List.flatMap_cons, List.map_append, List.sum_append, List.map_cons,
      List.sum_cons, ih]

theorem sum_map_spike {M : Type _} [AddCommMonoid M] (n a : ℕ) (c : M) :
    ((List.range n).map (fun i => if i = a then c else 0)).sum =
      if a < n then c else 0 := by
  induction n with
  | zero => simp
  | succ m ih =>
    rw [List.range_succ, List.map_append, List.sum_append, ih]
    simp only [List.map_cons, List.map_nil, List.sum_cons, List.sum_nil,
      add_zero]
    by_cases h1 : a < m
    · rw [if_pos h1, if_neg (by omega), if_pos (by omega), add_zero]
    · by_cases h2 : m = a
      · subst h2
        rw [if_neg h1, if_pos rfl, if_pos (by omega), zero_add]
      · rw [if_neg h1, if_neg h2, if_neg (by omega), add_zero]

theorem sum_map_add_distrib {M α : Type _} [AddCommMonoid M] (f g : α → M)
    (l : List α) :
    (l.map (fun x => f x + g x)).sum = (l.map f).sum + (l.map g).sum := by
  induction l with
  | nil => simp
  | cons x xs ih =>
    simp only [List.map_cons, List.sum_cons, ih]
    rw [add_add_add_comm]

theorem sum_map_const_nat {α : Type _} (l : List α) (c : ℕ) :
    (l.map (fun _ => c)).sum = l.length * c := by
  induction l with
  | nil => simp
  | cons x xs ih =>
    simp only [List.map_cons, List.sum_cons, ih, List.length_cons]
    ring

theorem getD_set_self {α : Type _} (l : List α) (i : ℕ) (a d : α)
    (h : i < l.length) : (l.set i a).getD i d = a := by
  rw [List.getD_eq_getElem?_getD, List.getElem?_set, if_pos rfl, if_pos h]
  rfl

theorem getD_set_ne {α : Type _} (l : List α) (i j : ℕ) (a d : α)
    (h : i ≠ j) : (l.set i a).getD j d = l.getD j d := by
  rw [List.getD_eq_getElem?_getD, List.getElem?_set, if_neg h,
    ← List.getD_eq_getElem?_getD]

theorem getD_concat_length {α : Type _} (l : List α) (a d : α) :
    (l ++ [a]).getD l.length d = a := by
  rw [List.getD_eq_getElem?_getD, List.getElem?_concat_length]
  rfl

theorem length_flatMap_rows {α : Type _} (h : ℕ → List α) (R M : ℕ)
    (hlen : ∀ x, (h x).length = M) :
    ((List.range R).flatMap h).length = R * M := by
  rw [List.length_flatMap,
    List.map_congr_left (fun a _ => show (List.length ∘ h) a = M from hlen a),
    sum_map_const_nat, List.length_range]

theorem getD_flatMap_rows {α : Type _} (h : ℕ → List α) (M : ℕ) (d : α)
    (hlen : ∀ x, (h x).length = M) :
    ∀ (R j i : ℕ), j < R → i < M →
      ((List.range R).flatMap h).getD (j * M + i) d = (h j).getD i d := by
  intro R
  induction R with
  | zero => intro j i hj _; omega
  | succ m ih =>
    intro j i hj hi
    rw [List.range_succ, List.flatMap_append, List.flatMap_cons,
      List.flatMap_nil, List.append_nil]
    by_cases hjm : j < m
    · rw [List.getD_append]
      · exact ih j i hjm hi
      · rw [length_flatMap_rows h m M hlen]
        have h1 : (j + 1) * M ≤ m * M := Nat.mul_le_mul_right M hjm
        rw [Nat.succ_mul] at h1
        set x := j * M
        set y := m * M
        omega
    · have hj' : j = m := by omega
      subst hj'
      rw [List.getD_append_right _ _ _ _
        (by rw [length_flatMap_rows h j M hlen]; exact Nat.le_add_right _ _),
        length_flatMap_rows h j M hlen, Nat.add_sub_cancel_left]

theorem kcount_append (l1 l2 : List ((ℕ × ℕ) × ℕ)) (k : ℕ × ℕ) :
    kcount (l1 ++ l2) k = kcount l1 k + kcount l2 k := by
  rw [kcount, kcount, kcount, List.countP_append]

theorem kcount_singleton (q : (ℕ × ℕ) × ℕ) (k : ℕ × ℕ) :
    kcount [q] k = if q.1 = k then 1 else 0 := by
  rw [kcount]
  simp [List.countP_cons]

theorem mapLookup_cons (k0 : ℕ × ℕ) (v : ℕ) (rest : List ((ℕ × ℕ) × ℕ))
    (key : ℕ × ℕ) :
    mapLookup ((k0, v) :: rest) key =
      if k0 = key then some v else mapLookup rest key := rfl

theorem connInv_mk (l : List ((ℕ × ℕ) × ℕ)) (edges : List Edge)
    (emap : List ((ℕ × ℕ) × ℕ))
    (c1 : ∀ k eid, mapLookup emap k = some eid →
      eid < edges.length ∧ (edges.getD eid default).nodes = k)
    (c2 : ∀ eid, eid < edges.length →
      mapLookup emap ((edges.getD eid default).nodes) = some eid)
    (c3 : ∀ k, mapLookup emap k = none → kcount l k = 0)
    (c4 : ∀ eid, eid < edges.length →
      ((edges.getD eid default).tri1 = -1 ∧
        kcount l ((edges.getD eid default).nodes) = 1) ∨
      ((edges.getD eid default).tri1 ≠ -1 ∧
        2 ≤ kcount l ((edges.getD eid default).nodes))) :
    ConnInv l ⟨edges, emap⟩ :=
  ⟨c1, c2, c3, c4⟩

theorem conn_step_inv_hit (pre : List ((ℕ × ℕ) × ℕ)) (st : ConnState)
    (q : (ℕ × ℕ) × ℕ) (eid : ℕ) (h : ConnInv pre st)
    (hlk : mapLookup st.emap q.1 = some eid) :
    ConnInv (pre ++ [q])
      ⟨st.edges.set eid { st.edges.getD eid default with tri1 := (q.2 : ℤ) },
       st.emap⟩ := by
  obtain ⟨h1, h2, h3, h4⟩ := h
  obtain ⟨heid, hnod⟩ := h1 q.1 eid hlk
  have hkc : ∀ k, kcount (pre ++ [q]) k =
      kcount pre k + if q.1 = k then 1 else 0 := fun k => by
    rw [kcount_append, kcount_singleton]
  apply connInv_mk
  · intro k eid' hl'
    obtain ⟨hlt, hnd⟩ := h1 k eid' hl'
    refine ⟨by rw [List.length_set]; exact hlt, ?_⟩
    by_cases he : eid = eid'
    · subst he
      rw [getD_set_self _ _ _ _ heid]
      exact hnd
    · rw [getD_set_ne _ _ _ _ _ he]
      exact hnd
  · intro eid' hlt'
    rw [List.length_set] at hlt'
    by_cases he : eid = eid'
    · subst he
      rw [getD_set_self _ _ _ _ heid]
      show mapLookup st.emap ((st.edges.getD eid default).nodes) = some eid
      rw [hnod]
      exact hlk
    · rw [getD_set_ne _ _ _ _ _ he]
      exact h2 eid' hlt'
  · intro k hnone
    have hne : q.1 ≠ k := by
      intro hqk
      rw [hqk, hnone] at hlk
      exact Option.noConfusion hlk
    rw [hkc k, h3 k hnone, if_neg hne]
  · intro eid' hlt'
    rw [List.length_set] at hlt'
    by_cases he : eid = eid'
    · subst he
      rw [getD_set_self _ _ _ _ heid]
      right
      constructor
      · show (q.2 : ℤ) ≠ -1
        omega
      · show 2 ≤ kcount (pre ++ [q]) ((st.edges.getD eid default).nodes)
        rw [hnod, hkc q.1, if_pos rfl]
        rcases h4 eid heid with ⟨-, hc⟩ | ⟨-, hc⟩ <;> rw [hnod] at hc <;> omega
    · rw [getD_set_ne _ _ _ _ _ he]
      have hne : (st.edges.getD eid' default).nodes ≠ q.1 := by
        intro heq
        have hx := h2 eid' hlt'
        rw [heq, hlk] at hx
        exact he (Option.some.inj hx)
      rcases h4 eid' hlt' with ⟨ht, hc⟩ | ⟨ht, hc⟩
      · exact Or.inl ⟨ht, by
          rw [hkc, if_neg (fun hq => hne hq.symm), add_zero]; exact hc⟩
      · exact Or.inr ⟨ht, by
          rw [hkc, if_neg (fun hq => hne hq.symm), add_zero]; exact hc⟩

theorem conn_step_inv_miss (pre : List ((ℕ × ℕ) × ℕ)) (st : ConnState)
    (q : (ℕ × ℕ) × ℕ) (h : ConnInv pre st)
    (hlk : mapLookup st.emap q.1 = none) :
    ConnInv (pre ++ [q])
      ⟨st.edges ++ [{ nodes := q.1, tri0 := (q.2 : ℤ), tri1 := -1 }],
       (q.1, st.edges.length) :: st.emap⟩ := by
  obtain ⟨h1, h2, h3, h4⟩ := h
  have hkc : ∀ k, kcount (pre ++ [q]) k =
      kcount pre k + if q.1 = k then 1 else 0 := fun k => by
    rw [kcount_append, kcount_singleton]
  have hlen : (st.edges ++
      [({ nodes := q.1, tri0 := (q.2 : ℤ), tri1 := -1 } : Edge)]).length =
      st.edges.length + 1 := by simp
  apply connInv_mk
  · intro k eid' hl'
    rw [mapLookup_cons] at hl'
    by_cases hqk : q.1 = k
    · rw [if_pos hqk] at hl'
      have he' : eid' = st.edges.length := (Option.some.inj hl').symm
      subst he'
      refine ⟨by rw [hlen]; omega, ?_⟩
      rw [getD_concat_length]
      exact hqk
    · rw [if_neg hqk] at hl'
      obtain ⟨hlt, hnd⟩ := h1 k eid' hl'
      refine ⟨by rw [hlen]; omega, ?_⟩
      rw [List.getD_append _ _ _ _ hlt]
      exact hnd
  · intro eid' hlt'
    rw [hlen] at hlt'
    by_cases he : eid' = st.edges.length
    · subst he
      rw [getD_concat_length, mapLookup_cons, if_pos rfl]
    · have hlt2 : eid' < st.edges.length := by omega
      have hne : q.1 ≠ (st.edges.getD eid' default).nodes := by
        intro heq
        have hx := h2 eid' hlt2
        rw [← heq, hlk] at hx
        exact Option.noConfusion hx
      rw [List.getD_append _ _ _ _ hlt2, mapLookup_cons, if_neg hne]
      exact h2 eid' hlt2
  · intro k hn'
    rw [mapLookup_cons] at hn'
    by_cases hqk : q.1 = k
    · rw [if_pos hqk] at hn'
      exact Option.noConfusion hn'
    · rw [if_neg hqk] at hn'
      rw [hkc k, h3 k hn', if_neg hqk]
  · intro eid' hlt'
    rw [hlen] at hlt'
    by_cases he : eid' = st.edges.length
    · subst he
      rw [getD_concat_length]
      left
      refine ⟨rfl, ?_⟩
      show kcount (pre ++ [q]) q.1 = 1
      rw [hkc q.1, h3 q.1 hlk, if_pos rfl]
    · have hlt2 : eid' < st.edges.length := by omega
      rw [List.getD_append _ _ _ _ hlt2]
      have hne : (st.edges.getD eid' default).nodes ≠ q.1 := by
        intro heq
        have hx := h2 eid' hlt2
        rw [heq, hlk] at hx
        exact Option.noConfusion hx
      rcases h4 eid' hlt2 with ⟨ht, hc⟩ | ⟨ht, hc⟩
      · exact Or.inl ⟨ht, by
          rw [hkc, if_neg (fun hq => hne hq.symm), add_zero]; exact hc⟩
      · exact Or.inr ⟨ht, by
          rw [hkc, if_neg (fun hq => hne hq.symm), add_zero]; exact hc⟩

theorem conn_step_inv (pre : List ((ℕ × ℕ) × ℕ)) (st : ConnState)
    (q : (ℕ × ℕ) × ℕ) (h : ConnInv pre st) :
    ConnInv (pre ++ [q]) (record_side st q) := by
  cases hlk : mapLookup st.emap q.1 with
  | none =>
    have heq : record_side st q =
        ⟨st.edges ++ [{ nodes := q.1, tri0 := (q.2 : ℤ), tri1 := -1 }],
         (q.1, st.edges.length) :: st.emap⟩ := by
      simp only [record_side, hlk]
    rw [heq]
    exact conn_step_inv_miss pre st q h hlk
  | some eid =>
    have heq : record_side st q =
        ⟨st.edges.set eid
          { st.edges.getD eid default with tri1 := (q.2 : ℤ) },
         st.emap⟩ := by
      simp only [record_side, hlk]
    rw [heq]
    exact conn_step_inv_hit pre st q eid h hlk

theorem conn_inv_base : ConnInv [] ⟨[], []⟩ := by
  apply connInv_mk
  · intro k eid h
    exact Option.noConfusion h
  · intro eid h
    simp at h
  · intro k _
    rfl
  · intro eid h
    simp at h

theorem conn_fold_inv_aux (l : List ((ℕ × ℕ) × ℕ)) :
    ∀ (pre : List ((ℕ × ℕ) × ℕ)) (st : ConnState), ConnInv pre st →
      ConnInv (pre ++ l) (l.foldl record_side st) := by
  induction l with
  | nil =>
    intro pre st h
    rw [List.append_nil]
    exact h
  | cons x xs ih =>
    intro pre st h
    rw [List.foldl_cons]
    have h2 := ih (pre ++ [x]) (record_side st x) (conn_step_inv pre st x h)
    rwa [List.append_assoc, List.singleton_append] at h2

theorem conn_fold_inv (l : List ((ℕ × ℕ) × ℕ)) :
    ConnInv l (l.foldl record_side ⟨[], []⟩) := by
  have h := conn_fold_inv_aux l [] ⟨[], []⟩ conn_inv_base
  rwa [List.nil_append] at h

theorem build_connectivity_eq (triangles : List Triangle) :
    build_connectivity triangles =
      (sightings triangles).foldl record_side ⟨[], []⟩ := by
  rw [sightings, foldl_flatMap, build_connectivity]
  apply List.foldl_ext
  intro acc p _
  rw [List.foldl_map]
  apply List.foldl_ext
  intro acc2 q _
  rfl

theorem grid_unique (M j i a b : ℕ) (hM : 0 < M) (hi : i < M) (hb : b < M)
    (h : j * M + i = a * M + b) : j = a ∧ i = b := by
  have hj : j = a := by
    have h1 : (j * M + i) / M = j := by
      rw [mul_comm, Nat.mul_add_div hM, Nat.div_eq_of_lt hi, add_zero]
    have h2 : (a * M + b) / M = a := by
      rw [mul_comm, Nat.mul_add_div hM, Nat.div_eq_of_lt hb, add_zero]
    rw [← h1, h, h2]
  refine ⟨hj, ?_⟩
  subst hj
  exact Nat.add_left_cancel h

theorem edge_key_le {a b : ℕ} (h : a ≤ b) : edge_key a b = (a, b) := by
  rw [edge_key, min_eq_left h, max_eq_right h]

theorem edge_key_ge {a b : ℕ} (h : b ≤ a) : edge_key a b = (b, a) := by
  rw [edge_key, min_eq_right h, max_eq_left h]

theorem kH_inj (nx j i a b : ℕ) (hi : i ≤ nx) (hb : b ≤ nx) :
    kH nx j i = kH nx a b ↔ j = a ∧ i = b := by
  constructor
  · intro h
    rw [kH, kH, Prod.mk.injEq] at h
    exact grid_unique (nx + 1) j i a b (by omega) (by omega) (by omega) h.1
  · rintro ⟨rfl, rfl⟩
    rfl

theorem kV_inj (nx j i a b : ℕ) (hi : i ≤ nx) (hb : b ≤ nx) :
    kV nx j i = kV nx a b ↔ j = a ∧ i = b := by
  constructor
  · intro h
    rw [kV, kV, Prod.mk.injEq] at h
    exact grid_unique (nx + 1) j i a b (by omega) (by omega) (by omega) h.1
  · rintro ⟨rfl, rfl⟩
    rfl

theorem kD_inj (nx j i a b : ℕ) (hi : i < nx) (hb : b < nx) :
    kD nx j i = kD nx a b ↔ j = a ∧ i = b := by
  constructor
  · intro h
    rw [kD, kD, Prod.mk.injEq] at h
    have h1 : j * (nx + 1) + (i + 1) = a * (nx + 1) + (b + 1) := by
      rw [← Nat.add_assoc, ← Nat.add_assoc]
      exact h.1
    have h2 := grid_unique (nx + 1) j (i + 1) a (b + 1) (by omega) (by omega)
      (by omega) h1
    omega
  · rintro ⟨rfl, rfl⟩
    rfl

theorem kH_ne_kV (nx j i a b : ℕ) (hnx : 1 ≤ nx) : kH nx j i ≠ kV nx a b := by
  intro h
  rw [kH, kV, Prod.mk.injEq] at h
  obtain ⟨h1, h2⟩ := h
  omega

theorem kV_ne_kD (nx j i a b : ℕ) : kV nx j i ≠ kD nx a b := by
  intro h
  rw [kV, kD, Prod.mk.injEq] at h
  obtain ⟨h1, h2⟩ := h
  omega

theorem kH_ne_kD (nx j i a b : ℕ) (hi : i < nx) (hb : b < nx) :
    kH nx j i ≠ kD nx a b := by
  intro h
  rw [kH, kD, Prod.mk.injEq] at h
  obtain ⟨h1, h2⟩ := h
  have hnx : nx = 1 := by omega
  subst hnx
  omega

theorem side_keys_A (nx j i : ℕ) :
    side_keys { n0 := j * (nx + 1) + i, n1 := j * (nx + 1) + i + 1,
                n2 := j * (nx + 1) + i + (nx + 1) } =
      [kH nx j i, kD nx j i, kV nx j i] := by
  rw [side_keys, sidePairs]
  simp only [List.map_cons, List.map_nil]
  rw [edge_key_le (Nat.le_add_right _ _), edge_key_le (by omega),
    edge_key_ge (Nat.le_add_right _ _)]
  rfl

theorem side_keys_B (nx j i : ℕ) :
    side_keys { n0 := j * (nx + 1) + i + 1,
                n1 := j * (nx + 1) + i + (nx + 1) + 1,
                n2 := j * (nx + 1) + i + (nx + 1) } =
      [kV nx j (i + 1), kH nx (j + 1) i, kD nx j i] := by
  rw [side_keys, sidePairs]
  simp only [List.map_cons, List.map_nil]
  rw [edge_key_le (by omega), edge_key_ge (by omega), edge_key_ge (by omega)]
  simp only [kV, kH, kD, List.cons.injEq, Prod.mk.injEq]
  and_intros <;> ring

theorem sum_map_ind {α : Type _} (P : α → Prop) [DecidablePred P]
    (l : List α) :
    (l.map (fun x => if P x then 1 else 0)).sum =
      l.countP (fun x => decide (P x)) := by
  induction l with
  | nil => rfl
  | cons x xs ih =>
    rw [List.map_cons, List.sum_cons, List.countP_cons, ih]
    by_cases h : P x
    · rw [if_pos h, if_pos (by simp [h])]
      omega
    · rw [if_neg h, if_neg (by simp [h])]
      omega

theorem ite_and_comm (P Q : Prop) [Decidable P] [Decidable Q] (c : ℕ) :
    (if P ∧ Q then c else 0) = if Q then (if P then c else 0) else 0 := by
  by_cases hp : P <;> by_cases hq : Q <;> simp [hp, hq]

theorem sum_map_spike_succ (n a c : ℕ) :
    ((List.range n).map (fun i => if i + 1 = a then c else 0)).sum =
      if 1 ≤ a ∧ a ≤ n then c else 0 := by
  rcases a with _ | m
  · rw [List.map_congr_left (fun j _ =>
      show (if j + 1 = 0 then c else 0) = (0 : ℕ) by simp), sum_map_const_nat]
    simp
  · rw [List.map_congr_left (fun j _ =>
      show (if j + 1 = m + 1 then c else 0) = (if j = m then c else 0) by
        by_cases h : j = m
        · rw [if_pos (by omega), if_pos h]
        · rw [if_neg (by omega), if_neg h]),
      sum_map_spike]
    by_cases h : m < n
    · rw [if_pos h, if_pos (by omega)]
    · rw [if_neg h, if_neg (by omega)]

theorem kcount_sightings_sum (T : List Triangle) (k : ℕ × ℕ) :
    kcount (sightings T) k =
      (T.map (fun t =>
        List.countP (fun w => decide (w = k)) (side_keys t))).sum := by
  rw [kcount, sightings, countP_flatMap]
  have h1 : T.enum.map (fun p =>
      ((sidePairs p.2).map (fun q => (edge_key q.1 q.2, p.1))).countP
        (fun q => decide (q.1 = k))) =
      T.enum.map ((fun t =>
        List.countP (fun w => decide (w = k)) (side_keys t)) ∘ Prod.snd) := by
    apply List.map_congr_left
    intro p _
    simp only [Function.comp, side_keys, List.countP_map]
    congr 1
  rw [h1, ← List.map_map, List.enum_map_snd]

theorem create_rectangular_eq (width height : ℝ) (nx ny : ℕ) :
    create_rectangular width height nx ny =
      compute_geometry
        { nodes := grid_nodes width height nx ny
          triangles := grid_triangles nx ny
          edges := (build_connectivity (grid_triangles nx ny)).edges } := rfl

theorem kcount_grid (nx ny : ℕ) (k : ℕ × ℕ) :
    kcount (sightings (grid_triangles nx ny)) k =
      ((List.range ny).map (fun j => ((List.range nx).map (fun i =>
        List.countP (fun w => decide (w = k))
          [kH nx j i, kD nx j i, kV nx j i] +
        List.countP (fun w => decide (w = k))
          [kV nx j (i + 1), kH nx (j + 1) i, kD nx j i])).sum)).sum := by
  rw [kcount_sightings_sum, grid_triangles, sum_map_flatMap]
  congr 1
  apply List.map_congr_left
  intro j _
  rw [sum_map_flatMap]
  congr 1
  apply List.map_congr_left
  intro i _
  rw [quad_triangles]
  simp only [List.map_cons, List.map_nil, List.sum_cons, List.sum_nil,
    add_zero]
  rw [side_keys_A, side_keys_B]

theorem kcount_grid_kH (nx ny a b : ℕ) (hnx : 1 ≤ nx) (ha : a ≤ ny)
    (hb : b < nx) :
    kcount (sightings (grid_triangles nx ny)) (kH nx a b) =
      (if a < ny then 1 else 0) + (if 1 ≤ a then 1 else 0) := by
  rw [kcount_grid]
  have hinner : ∀ j ∈ List.range ny,
      ((List.range nx).map (fun i =>
        List.countP (fun w => decide (w = kH nx a b))
          [kH nx j i, kD nx j i, kV nx j i] +
        List.countP (fun w => decide (w = kH nx a b))
          [kV nx j (i + 1), kH nx (j + 1) i, kD nx j i])).sum =
      (if j = a then 1 else 0) + (if j + 1 = a then 1 else 0) := by
    intro j _
    have hmap : ∀ i ∈ List.range nx,
        (List.countP (fun w => decide (w = kH nx a b))
          [kH nx j i, kD nx j i, kV nx j i] +
         List.countP (fun w => decide (w = kH nx a b))
          [kV nx j (i + 1), kH nx (j + 1) i, kD nx j i]) =
        (if i = b then
          ((if j = a then 1 else 0) + (if j + 1 = a then 1 else 0)) else 0) := by
      intro i hi
      rw [List.mem_range] at hi
      have c1 : kH nx j i = kH nx a b ↔ j = a ∧ i = b :=
        kH_inj nx j i a b (by omega) (by omega)
      have c2 : ¬(kD nx j i = kH nx a b) :=
        fun hc => kH_ne_kD nx a b j i hb hi hc.symm
      have c3 : ¬(kV nx j i = kH nx a b) :=
        fun hc => kH_ne_kV nx a b j i hnx hc.symm
      have c4 : ¬(kV nx j (i + 1) = kH nx a b) :=
        fun hc => kH_ne_kV nx a b j (i + 1) hnx hc.symm
      have c5 : kH nx (j + 1) i = kH nx a b ↔ j + 1 = a ∧ i = b :=
        kH_inj nx (j + 1) i a b (by omega) (by omega)
      simp only [List.countP_cons, List.countP_nil, decide_eq_true_eq, c1,
        c2, c3, c4, c5, if_false, zero_add, add_zero, ite_and_comm]
      by_cases hib : i = b <;> by_cases hja : j = a <;>
        by_cases hja' : j + 1 = a <;> simp [hib, hja, hja'] <;> omega
    rw [List.map_congr_left hmap, sum_map_spike, if_pos hb]
  rw [List.map_congr_left hinner, sum_map_add_distrib, sum_map_spike,
    sum_map_spike_succ]
  have h2 : (if 1 ≤ a ∧ a ≤ ny then 1 else 0) =
      (if 1 ≤ a then (1 : ℕ) else 0) := by
    by_cases h : 1 ≤ a
    · rw [if_pos ⟨h, ha⟩, if_pos h]
    · rw [if_neg (fun hc => h hc.1), if_neg h]
  rw [h2]

theorem kcount_grid_kV (nx ny a b : ℕ) (hnx : 1 ≤ nx) (ha : a < ny)
    (hb : b ≤ nx) :
    kcount (sightings (grid_triangles nx ny)) (kV nx a b) =
      (if b < nx then 1 else 0) + (if 1 ≤ b then 1 else 0) := by
  rw [kcount_grid]
  have hinner : ∀ j ∈ List.range ny,
      ((List.range nx).map (fun i =>
        List.countP (fun w => decide (w = kV nx a b))
          [kH nx j i, kD nx j i, kV nx j i] +
        List.countP (fun w => decide (w = kV nx a b))
          [kV nx j (i + 1), kH nx (j + 1) i, kD nx j i])).sum =
      (if j = a then
        ((if b < nx then 1 else 0) + (if 1 ≤ b then 1 else 0)) else 0) := by
    intro j _
    have hmap : ∀ i ∈ List.range nx,
        (List.countP (fun w => decide (w = kV nx a b))
          [kH nx j i, kD nx j i, kV nx j i] +
         List.countP (fun w => decide (w = kV nx a b))
          [kV nx j (i + 1), kH nx (j + 1) i, kD nx j i]) =
        ((if i = b then (if j = a then 1 else 0) else 0) +
         (if i + 1 = b then (if j = a then 1 else 0) else 0)) := by
      intro i hi
      rw [List.mem_range] at hi
      have c1 : ¬(kH nx j i = kV nx a b) := kH_ne_kV nx j i a b hnx
      have c2 : ¬(kD nx j i = kV nx a b) :=
        fun hc => kV_ne_kD nx a b j i hc.symm
      have c3 : kV nx j i = kV nx a b ↔ j = a ∧ i = b :=
        kV_inj nx j i a b (by omega) hb
      have c4 : kV nx j (i + 1) = kV nx a b ↔ j = a ∧ i + 1 = b :=
        kV_inj nx j (i + 1) a b (by omega) hb
      have c5 : ¬(kH nx (j + 1) i = kV nx a b) :=
        kH_ne_kV nx (j + 1) i a b hnx
      simp only [List.countP_cons, List.countP_nil, decide_eq_true_eq, c1,
        c2, c3, c4, c5, if_false, zero_add, add_zero, ite_and_comm]
    rw [List.map_congr_left hmap, sum_map_add_distrib, sum_map_spike,
      sum_map_spike_succ]
    split_ifs <;> omega
  rw [List.map_congr_left hinner, sum_map_spike, if_pos ha]

theorem kcount_grid_kD (nx ny a b : ℕ) (hnx : 1 ≤ nx) (ha : a < ny)
    (hb : b < nx) :
    kcount (sightings (grid_triangles nx ny)) (kD nx a b) = 2 := by
  rw [kcount_grid]
  have hinner : ∀ j ∈ List.range ny,
      ((List.range nx).map (fun i =>
        List.countP (fun w => decide (w = kD nx a b))
          [kH nx j i, kD nx j i, kV nx j i] +
        List.countP (fun w => decide (w = kD nx a b))
          [kV nx j (i + 1), kH nx (j + 1) i, kD nx j i])).sum =
      (if j = a then 2 else 0) := by
    intro j _
    have hmap : ∀ i ∈ List.range nx,
        (List.countP (fun w => decide (w = kD nx a b))
          [kH nx j i, kD nx j i, kV nx j i] +
         List.countP (fun w => decide (w = kD nx a b))
          [kV nx j (i + 1), kH nx (j + 1) i, kD nx j i]) =
        (if i = b then (if j = a then 2 else 0) else 0) := by
      intro i hi
      rw [List.mem_range] at hi
      have c1 : ¬(kH nx j i = kD nx a b) := kH_ne_kD nx j i a b hi hb
      have c2 : kD nx j i = kD nx a b ↔ j = a ∧ i = b :=
        kD_inj nx j i a b hi hb
      have c3 : ¬(kV nx j i = kD nx a b) := kV_ne_kD nx j i a b
      have c4 : ¬(kV nx j (i + 1) = kD nx a b) := kV_ne_kD nx j (i + 1) a b
      have c5 : ¬(kH nx (j + 1) i = kD nx a b) :=
        kH_ne_kD nx (j + 1) i a b hi hb
      simp only [List.countP_cons, List.countP_nil, decide_eq_true_eq, c1,
        c2, c3, c4, c5, if_false, zero_add, add_zero, ite_and_comm]
      split_ifs <;> omega
    rw [List.map_congr_left hmap, sum_map_spike, if_pos hb]
  rw [List.map_congr_left hinner, sum_map_spike, if_pos ha]

theorem grid_key_shapes (nx ny : ℕ) (k : ℕ × ℕ)
    (h : 0 < kcount (sightings (grid_triangles nx ny)) k) :
    (∃ a b, a ≤ ny ∧ b < nx ∧ k = kH nx a b) ∨
    (∃ a b, a < ny ∧ b ≤ nx ∧ k = kV nx a b) ∨
    (∃ a b, a < ny ∧ b < nx ∧ k = kD nx a b) := by
  rw [kcount, List.countP_pos] at h
  obtain ⟨q, hq, hqk⟩ := h
  have hqk2 : q.1 = k := of_decide_eq_true hqk
  rw [sightings, List.mem_flatMap] at hq
  obtain ⟨p, hp, hq2⟩ := hq
  rw [List.mem_map] at hq2
  obtain ⟨sp, hsp, hq3⟩ := hq2
  have hk : k ∈ side_keys p.2 := by
    rw [side_keys, List.mem_map]
    exact ⟨sp, hsp, by rw [← hqk2, ← hq3]⟩
  have hmem : p.2 ∈ grid_triangles nx ny := by
    rw [← List.enum_map_snd (grid_triangles nx ny)]
    exact List.mem_map_of_mem Prod.snd hp
  rw [grid_triangles, List.mem_flatMap] at hmem
  obtain ⟨j, hj, hmem2⟩ := hmem
  rw [List.mem_flatMap] at hmem2
  obtain ⟨i, hi, hmem3⟩ := hmem2
  rw [List.mem_range] at hj
  rw [List.mem_range] at hi
  rw [quad_triangles, List.mem_cons, List.mem_singleton] at hmem3
  rcases hmem3 with hA | hB
  · rw [hA, side_keys_A, List.mem_cons, List.mem_cons,
      List.mem_singleton] at hk
    rcases hk with hk | hk | hk
    · exact Or.inl ⟨j, i, by omega, hi, hk⟩
    · exact Or.inr (Or.inr ⟨j, i, hj, hi, hk⟩)
    · exact Or.inr (Or.inl ⟨j, i, hj, by omega, hk⟩)
  · rw [hB, side_keys_B, List.mem_cons, List.mem_cons,
      List.mem_singleton] at hk
    rcases hk with hk | hk | hk
    · exact Or.inr (Or.inl ⟨j, i + 1, hj, by omega, hk⟩)
    · exact Or.inl ⟨j + 1, i, by omega, hi, hk⟩
    · exact Or.inr (Or.inr ⟨j, i, hj, hi, hk⟩)

theorem kcount_eq_one_iff (nx ny : ℕ) (hnx : 1 ≤ nx) (hny : 1 ≤ ny)
    (k : ℕ × ℕ) :
    kcount (sightings (grid_triangles nx ny)) k = 1 ↔
      k ∈ boundary_keys nx ny := by
  constructor
  · intro h1
    have hpos : 0 < kcount (sightings (grid_triangles nx ny)) k := by omega
    rcases grid_key_shapes nx ny k hpos with ⟨a, b, ha, hb, rfl⟩ |
      ⟨a, b, ha, hb, rfl⟩ | ⟨a, b, ha, hb, rfl⟩
    · rw [kcount_grid_kH nx ny a b hnx ha hb] at h1
      have hcase : a = 0 ∨ a = ny := by
        by_cases hlt : a < ny <;> by_cases hle : 1 ≤ a <;>
          simp [hlt, hle] at h1 <;> omega
      rw [boundary_keys]
      rcases hcase with rfl | rfl
      · exact List.mem_append_left _
          (List.mem_map.mpr ⟨b, List.mem_range.mpr hb, rfl⟩)
      · exact List.mem_append_right _ (List.mem_append_left _
          (List.mem_map.mpr ⟨b, List.mem_range.mpr hb, rfl⟩))
    · rw [kcount_grid_kV nx ny a b hnx ha hb] at h1
      have hcase : b = 0 ∨ b = nx := by
        by_cases hlt : b < nx <;> by_cases hle : 1 ≤ b <;>
          simp [hlt, hle] at h1 <;> omega
      rw [boundary_keys]
      rcases hcase with rfl | rfl
      · exact List.mem_append_right _ (List.mem_append_right _
          (List.mem_append_left _
            (List.mem_map.mpr ⟨a, List.mem_range.mpr ha, rfl⟩)))
      · exact List.mem_append_right _ (List.mem_append_right _
          (List.mem_append_right _
            (List.mem_map.mpr ⟨a, List.mem_range.mpr ha, rfl⟩)))
    · rw [kcount_grid_kD nx ny a b hnx ha hb] at h1
      omega
  · intro hmem
    rw [boundary_keys] at hmem
    rcases List.mem_append.mp hmem with h1 | h1
    · obtain ⟨b, hb, rfl⟩ := List.mem_map.mp h1
      rw [List.mem_range] at hb
      rw [kcount_grid_kH nx ny 0 b hnx (by omega) hb,
        if_pos (by omega), if_neg (by omega)]
    · rcases List.mem_append.mp h1 with h2 | h2
      · obtain ⟨b, hb, rfl⟩ := List.mem_map.mp h2
        rw [List.mem_range] at hb
        rw [kcount_grid_kH nx ny ny b hnx (le_refl ny) hb,
          if_neg (by omega), if_pos (by omega)]
      · rcases List.mem_append.mp h2 with h3 | h3
        · obtain ⟨a, ha, rfl⟩ := List.mem_map.mp h3
          rw [List.mem_range] at ha
          rw [kcount_grid_kV nx ny a 0 hnx ha (by omega),
            if_pos (by omega), if_neg (by omega)]
        · obtain ⟨a, ha, rfl⟩ := List.mem_map.mp h3
          rw [List.mem_range] at ha
          rw [kcount_grid_kV nx ny a nx hnx ha (le_refl nx),
            if_neg (by omega), if_pos (by omega)]

theorem kcount_le_two (nx ny : ℕ) (hnx : 1 ≤ nx) (hny : 1 ≤ ny) (k : ℕ × ℕ)
    (h : 0 < kcount (sightings (grid_triangles nx ny)) k) :
    kcount (sightings (grid_triangles nx ny)) k ≤ 2 := by
  rcases grid_key_shapes nx ny k h with ⟨a, b, ha, hb, rfl⟩ |
    ⟨a, b, ha, hb, rfl⟩ | ⟨a, b, ha, hb, rfl⟩
  · rw [kcount_grid_kH nx ny a b hnx ha hb]
    split_ifs <;> omega
  · rw [kcount_grid_kV nx ny a b hnx ha hb]
    split_ifs <;> omega
  · rw [kcount_grid_kD nx ny a b hnx ha hb]

theorem boundary_keys_nodup (nx ny : ℕ) (hnx : 1 ≤ nx) (hny : 1 ≤ ny) :
    (boundary_keys nx ny).Nodup := by
  have nod1 : ((List.range nx).map (fun i => kH nx 0 i)).Nodup := by
    apply List.Nodup.map_on ?_ (List.nodup_range nx)
    intro x hx y hy hxy
    rw [List.mem_range] at hx hy
    exact ((kH_inj nx 0 x 0 y (by omega) (by omega)).mp hxy).2
  have nod2 : ((List.range nx).map (fun i => kH nx ny i)).Nodup := by
    apply List.Nodup.map_on ?_ (List.nodup_range nx)
    intro x hx y hy hxy
    rw [List.mem_range] at hx hy
    exact ((kH_inj nx ny x ny y (by omega) (by omega)).mp hxy).2
  have nod3 : ((List.range ny).map (fun j => kV nx j 0)).Nodup := by
    apply List.Nodup.map_on ?_ (List.nodup_range ny)
    intro x _ y _ hxy
    exact ((kV_inj nx x 0 y 0 (by omega) (by omega)).mp hxy).1
  have nod4 : ((List.range ny).map (fun j => kV nx j nx)).Nodup := by
    apply List.Nodup.map_on ?_ (List.nodup_range ny)
    intro x _ y _ hxy
    exact ((kV_inj nx x nx y nx (le_refl nx) (le_refl nx)).mp hxy).1
  rw [boundary_keys, List.nodup_append]
  refine ⟨nod1, ?_, ?_⟩
  · rw [List.nodup_append]
    refine ⟨nod2, ?_, ?_⟩
    · rw [List.nodup_append]
      refine ⟨nod3, nod4, ?_⟩
      intro k hk3 hk4
      obtain ⟨a1, ha1, rfl⟩ := List.mem_map.mp hk3
      obtain ⟨a2, ha2, he⟩ := List.mem_map.mp hk4
      have h2 := (kV_inj nx a2 nx a1 0 (le_refl nx) (by omega)).mp he
      omega
    · intro k hk2 hk34
      obtain ⟨b1, hb1, rfl⟩ := List.mem_map.mp hk2
      rcases List.mem_append.mp hk34 with h3 | h4
      · obtain ⟨a1, ha1, he⟩ := List.mem_map.mp h3
        exact kH_ne_kV nx ny b1 a1 0 hnx he.symm
      · obtain ⟨a1, ha1, he⟩ := List.mem_map.mp h4
        exact kH_ne_kV nx ny b1 a1 nx hnx he.symm
  · intro k hk1 hkrest
    obtain ⟨b1, hb1, rfl⟩ := List.mem_map.mp hk1
    rw [List.mem_range] at hb1
    rcases List.mem_append.mp hkrest with h2 | h34
    · obtain ⟨b2, hb2, he⟩ := List.mem_map.mp h2
      rw [List.mem_range] at hb2
      have hc := (kH_inj nx ny b2 0 b1 (by omega) (by omega)).mp he
      omega
    · rcases List.mem_append.mp h34 with h3 | h4
      · obtain ⟨a1, ha1, he⟩ := List.mem_map.mp h3
        exact kH_ne_kV nx 0 b1 a1 0 hnx he.symm
      · obtain ⟨a1, ha1, he⟩ := List.mem_map.mp h4
        exact kH_ne_kV nx 0 b1 a1 nx hnx he.symm

theorem boundary_keys_length (nx ny : ℕ) :
    (boundary_keys nx ny).length = 2 * (nx + ny) := by
  rw [boundary_keys]
  simp only [List.length_append, List.length_map, List.length_range]
  ring

theorem grid_conn_inv (nx ny : ℕ) :
    ConnInv (sightings (grid_triangles nx ny))
      (build_connectivity (grid_triangles nx ny)) := by
  rw [build_connectivity_eq]
  exact conn_fold_inv _

theorem mem_iff_getD {α : Type _} (l : List α) (x : α) (d : α) (h : x ∈ l) :
    ∃ i, i < l.length ∧ l.getD i d = x := by
  obtain ⟨i, hi, he⟩ := List.mem_iff_getElem.mp h
  refine ⟨i, hi, ?_⟩
  rw [List.getD_eq_getElem?_getD, List.getElem?_eq_getElem hi]
  exact he

/-- Each edge `build_connectivity` produces for the grid is a boundary
edge (`tri1 = -1`) exactly when its key was sighted once, and its key was
sighted at least once. -/
theorem grid_edge_adj (nx ny : ℕ) (e : Edge)
    (he : e ∈ (build_connectivity (grid_triangles nx ny)).edges) :
    (e.tri1 = -1 ↔
      kcount (sightings (grid_triangles nx ny)) e.nodes = 1) ∧
    0 < kcount (sightings (grid_triangles nx ny)) e.nodes := by
  obtain ⟨h1, h2, h3, h4⟩ := grid_conn_inv nx ny
  obtain ⟨eid, hlt, hgd⟩ := mem_iff_getD _ e default he
  rcases h4 eid hlt with ⟨ht, hc⟩ | ⟨ht, hc⟩
  · rw [hgd] at ht hc
    exact ⟨⟨fun _ => hc, fun _ => ht⟩, by omega⟩
  · rw [hgd] at ht hc
    exact ⟨⟨fun hcon => absurd hcon ht,
      fun h1c => absurd h1c (by omega)⟩, by omega⟩

theorem countP_key_three (x y z k : ℕ × ℕ) (hxy : x ≠ y) (hxz : x ≠ z)
    (hyz : y ≠ z) :
    List.countP (fun w => decide (w = k)) [x, y, z] =
      if k = x ∨ k = y ∨ k = z then 1 else 0 := by
  by_cases hx : x = k
  · have hy : ¬(y = k) := fun hc => hxy (by rw [hx, hc])
    have hz : ¬(z = k) := fun hc => hxz (by rw [hx, hc])
    simp [List.countP_cons, hx, hy, hz]
  · by_cases hy : y = k
    · have hz : ¬(z = k) := fun hc => hyz (by rw [hy, hc])
      have hx' : ¬(k = x) := fun hc => hx hc.symm
      simp [List.countP_cons, hx', hy, hz, hx]
    · by_cases hz : z = k
      · have hx' : ¬(k = x) := fun hc => hx hc.symm
        have hy' : ¬(k = y) := fun hc => hy hc.symm
        simp [List.countP_cons, hx', hy', hz, hx, hy]
      · have hx' : ¬(k = x) := fun hc => hx hc.symm
        have hy' : ¬(k = y) := fun hc => hy hc.symm
        have hz' : ¬(k = z) := fun hc => hz hc.symm
        simp [List.countP_cons, hx, hy, hz, hx', hy', hz']

theorem kcount_sightings_eq_adj (T : List Triangle) (k : ℕ × ℕ)
    (htri : ∀ t ∈ T, List.countP (fun w => decide (w = k)) (side_keys t) =
      if k ∈ side_keys t then 1 else 0) :
    kcount (sightings T) k = adj_count T k := by
  rw [kcount_sightings_sum, List.map_congr_left htri, adj_count, sum_map_ind]

theorem grid_kcount_eq_adj (nx ny : ℕ) (hnx : 1 ≤ nx) (k : ℕ × ℕ) :
    kcount (sightings (grid_triangles nx ny)) k =
      adj_count (grid_triangles nx ny) k := by
  apply kcount_sightings_eq_adj
  intro t ht
  rw [grid_triangles, List.mem_flatMap] at ht
  obtain ⟨j, hj, ht2⟩ := ht
  rw [List.mem_flatMap] at ht2
  obtain ⟨i, hi, ht3⟩ := ht2
  rw [List.mem_range] at hi
  rw [quad_triangles, List.mem_cons, List.mem_singleton] at ht3
  rcases ht3 with rfl | rfl
  · rw [side_keys_A,
      countP_key_three _ _ _ k (kH_ne_kD nx j i j i hi hi)
        (kH_ne_kV nx j i j i hnx) (Ne.symm (kV_ne_kD nx j i j i))]
    simp only [List.mem_cons, List.mem_singleton, List.not_mem_nil, or_false]
  · rw [side_keys_B,
      countP_key_three _ _ _ k (Ne.symm (kH_ne_kV nx (j + 1) i j (i + 1) hnx))
        (kV_ne_kD nx j (i + 1) j i) (kH_ne_kD nx (j + 1) i j i hi hi)]
    simp only [List.mem_cons, List.mem_singleton, List.not_mem_nil, or_false]

theorem grid_nodes_complete (nx ny : ℕ) (k : ℕ × ℕ)
    (h : 0 < kcount (sightings (grid_triangles nx ny)) k) :
    k ∈ (build_connectivity (grid_triangles nx ny)).edges.map Edge.nodes := by
  obtain ⟨h1, h2, h3, h4⟩ := grid_conn_inv nx ny
  cases hlk : mapLookup (build_connectivity (grid_triangles nx ny)).emap k with
  | none => exact absurd (h3 k hlk) (by omega)
  | some eid =>
    obtain ⟨hlt, hnd⟩ := h1 k eid hlk
    rw [List.mem_map]
    refine ⟨(build_connectivity (grid_triangles nx ny)).edges.getD eid default,
      ?_, hnd⟩
    have hg : (build_connectivity (grid_triangles nx ny)).edges.getD eid
        default = (build_connectivity (grid_triangles nx ny)).edges[eid] := by
      rw [List.getD_eq_getElem?_getD, List.getElem?_eq_getElem hlt]
      rfl
    rw [hg]
    exact List.getElem_mem hlt

theorem grid_edge_nodes_nodup (nx ny : ℕ) :
    ((build_connectivity (grid_triangles nx ny)).edges.map Edge.nodes).Nodup
    := by
  obtain ⟨h1, h2, h3, h4⟩ := grid_conn_inv nx ny
  rw [List.nodup_iff_getElem?_ne_getElem?]
  intro i j hij hj hcon
  rw [List.length_map] at hj
  have hi : i < (build_connectivity (grid_triangles nx ny)).edges.length := by
    omega
  rw [List.getElem?_map, List.getElem?_map, List.getElem?_eq_getElem hi,
    List.getElem?_eq_getElem hj] at hcon
  have hcon2 : Edge.nodes (build_connectivity (grid_triangles nx ny)).edges[i]
      = Edge.nodes (build_connectivity (grid_triangles nx ny)).edges[j] :=
    Option.some.inj hcon
  have hgi : (build_connectivity (grid_triangles nx ny)).edges.getD i default
      = (build_connectivity (grid_triangles nx ny)).edges[i] := by
    rw [List.getD_eq_getElem?_getD, List.getElem?_eq_getElem hi]
    rfl
  have hgj : (build_connectivity (grid_triangles nx ny)).edges.getD j default
      = (build_connectivity (grid_triangles nx ny)).edges[j] := by
    rw [List.getD_eq_getElem?_getD, List.getElem?_eq_getElem hj]
    rfl
  have e1 := h2 i hi
  have e2 := h2 j hj
  rw [hgi] at e1
  rw [hgj] at e2
  rw [hcon2] at e1
  rw [e2] at e1
  exact absurd (Option.some.inj e1) (by omega)

/-- The boundary-edge count of the grid connectivity is `2(nx+ny)`. -/
theorem grid_boundary_count (nx ny : ℕ) (hnx : 1 ≤ nx) (hny : 1 ≤ ny) :
    (build_connectivity (grid_triangles nx ny)).edges.countP
      (fun e => decide (e.tri1 = -1)) = 2 * (nx + ny) := by
  have hstep1 : (build_connectivity (grid_triangles nx ny)).edges.countP
      (fun e => decide (e.tri1 = -1)) =
      (build_connectivity (grid_triangles nx ny)).edges.countP (fun e =>
        decide (kcount (sightings (grid_triangles nx ny)) e.nodes = 1)) := by
    apply List.countP_congr
    intro e hemem
    simp only [decide_eq_true_eq]
    exact (grid_edge_adj nx ny e hemem).1
  have hstep2 : ((build_connectivity (grid_triangles nx ny)).edges.map
      Edge.nodes).countP (fun k =>
        decide (kcount (sightings (grid_triangles nx ny)) k = 1)) =
      (build_connectivity (grid_triangles nx ny)).edges.countP (fun e =>
        decide (kcount (sightings (grid_triangles nx ny)) e.nodes = 1)) := by
    rw [List.countP_map]
    rfl
  have hperm : (((build_connectivity (grid_triangles nx ny)).edges.map
      Edge.nodes).filter (fun k =>
        decide (kcount (sightings (grid_triangles nx ny)) k = 1))).Perm
      (boundary_keys nx ny) := by
    rw [List.perm_ext_iff_of_nodup
      (List.Nodup.filter _ (grid_edge_nodes_nodup nx ny))
      (boundary_keys_nodup nx ny hnx hny)]
    intro k
    rw [List.mem_filter]
    constructor
    · rintro ⟨hmem, hp⟩
      exact (kcount_eq_one_iff nx ny hnx hny k).mp (of_decide_eq_true hp)
    · intro hbk
      have hc1 : kcount (sightings (grid_triangles nx ny)) k = 1 :=
        (kcount_eq_one_iff nx ny hnx hny k).mpr hbk
      exact ⟨grid_nodes_complete nx ny k (by omega), by simp [hc1]⟩
  rw [hstep1, ← hstep2, List.countP_eq_length_filter, hperm.length_eq,
    boundary_keys_length]

theorem side_keys_ctg (ns : List Point) (t : Triangle) :
    side_keys (compute_triangle_geometry ns t) = side_keys t := rfl

theorem adj_count_map_ctg (ns : List Point) (T : List Triangle) (k : ℕ × ℕ) :
    adj_count (T.map (compute_triangle_geometry ns)) k = adj_count T k := by
  rw [adj_count, adj_count, List.countP_map]
  rfl

theorem countP_tri1_map_ceg (ns : List Point) (E : List Edge) :
    (E.map (compute_edge_geometry ns)).countP
      (fun e => decide (e.tri1 = -1)) =
      E.countP (fun e => decide (e.tri1 = -1)) := by
  rw [List.countP_map]
  rfl

theorem grid_nodes_length (width height : ℝ) (nx ny : ℕ) :
    (grid_nodes width height nx ny).length = (nx + 1) * (ny + 1) := by
  have hlen : ∀ x : ℕ, ((List.range (nx + 1)).map (fun (i : ℕ) =>
      Point.mk ((i : ℝ) * (width / nx)) ((x : ℝ) * (height / ny)))).length =
      nx + 1 := by
    intro x
    rw [List.length_map, List.length_range]
  rw [grid_nodes, length_flatMap_rows _ (ny + 1) (nx + 1) hlen]
  ring

theorem grid_triangles_length (nx ny : ℕ) :
    (grid_triangles nx ny).length = 2 * (nx * ny) := by
  have hrow : ∀ j, ((List.range nx).flatMap
      (fun i => quad_triangles nx j i)).length = nx * 2 := by
    intro j
    rw [List.length_flatMap,
      List.map_congr_left (fun i _ =>
        show (List.length ∘ fun i => quad_triangles nx j i) i = 2 from rfl),
      sum_map_const_nat, List.length_range]
  rw [grid_triangles, List.length_flatMap,
    List.map_congr_left (fun j _ =>
      show (List.length ∘ fun j => (List.range nx).flatMap
        (fun i => quad_triangles nx j i)) j = nx * 2 from hrow j),
    sum_map_const_nat, List.length_range]
  ring

theorem grid_node_getD (width height : ℝ) (nx ny j i : ℕ) (hj : j ≤ ny)
    (hi : i ≤ nx) :
    (grid_nodes width height nx ny).getD (j * (nx + 1) + i) ⟨0, 0⟩ =
      ⟨(i : ℝ) * (width / nx), (j : ℝ) * (height / ny)⟩ := by
  have hlen : ∀ x : ℕ, ((List.range (nx + 1)).map (fun (i : ℕ) =>
      Point.mk ((i : ℝ) * (width / nx)) ((x : ℝ) * (height / ny)))).length =
      nx + 1 := by
    intro x
    rw [List.length_map, List.length_range]
  rw [grid_nodes, getD_flatMap_rows _ (nx + 1) _ hlen (ny + 1) j i
    (by omega) (by omega)]
  rw [List.getD_eq_getElem?_getD, List.getElem?_map,
    List.getElem?_range (show i < nx + 1 by omega)]
  rfl

theorem area_A (width height : ℝ) (nx ny j i : ℕ) (hw : 0 < width)
    (hh : 0 < height) (hnx : 1 ≤ nx) (hny : 1 ≤ ny) (hj : j < ny)
    (hi : i < nx) :
    (compute_triangle_geometry (grid_nodes width height nx ny)
      { n0 := j * (nx + 1) + i, n1 := j * (nx + 1) + i + 1,
        n2 := j * (nx + 1) + i + (nx + 1) }).area =
      width / nx * (height / ny) * 0.5 := by
  have hdx : (0 : ℝ) < width / nx := by
    apply div_pos hw
    exact_mod_cast (by omega : 0 < nx)
  have hdy : (0 : ℝ) < height / ny := by
    apply div_pos hh
    exact_mod_cast (by omega : 0 < ny)
  have hA1 : j * (nx + 1) + i + 1 = j * (nx + 1) + (i + 1) := by ring
  have hA2 : j * (nx + 1) + i + (nx + 1) = (j + 1) * (nx + 1) + i := by ring
  simp only [compute_triangle_geometry]
  rw [hA1, hA2, grid_node_getD width height nx ny j i (by omega) (by omega),
    grid_node_getD width height nx ny j (i + 1) (by omega) (by omega),
    grid_node_getD width height nx ny (j + 1) i (by omega) (by omega)]
  simp only [Point.cross, Point.sub_x, Point.sub_y]
  have key : ∀ X : ℝ, X = width / nx * (height / ny) →
      |X| * 0.5 = width / nx * (height / ny) * 0.5 := by
    intro X hX
    rw [hX, abs_of_pos (mul_pos hdx hdy)]
  apply key
  push_cast
  ring

theorem area_B (width height : ℝ) (nx ny j i : ℕ) (hw : 0 < width)
    (hh : 0 < height) (hnx : 1 ≤ nx) (hny : 1 ≤ ny) (hj : j < ny)
    (hi : i < nx) :
    (compute_triangle_geometry (grid_nodes width height nx ny)
      { n0 := j * (nx + 1) + i + 1, n1 := j * (nx + 1) + i + (nx + 1) + 1,
        n2 := j * (nx + 1) + i + (nx + 1) }).area =
      width / nx * (height / ny) * 0.5 := by
  have hdx : (0 : ℝ) < width / nx := by
    apply div_pos hw
    exact_mod_cast (by omega : 0 < nx)
  have hdy : (0 : ℝ) < height / ny := by
    apply div_pos hh
    exact_mod_cast (by omega : 0 < ny)
  have hA1 : j * (nx + 1) + i + 1 = j * (nx + 1) + (i + 1) := by ring
  have hB2 : j * (nx + 1) + i + (nx + 1) + 1 = (j + 1) * (nx + 1) + (i + 1) :=
    by ring
  have hA2 : j * (nx + 1) + i + (nx + 1) = (j + 1) * (nx + 1) + i := by ring
  simp only [compute_triangle_geometry]
  rw [hA1, hB2, hA2,
    grid_node_getD width height nx ny j (i + 1) (by omega) (by omega),
    grid_node_getD width height nx ny (j + 1) (i + 1) (by omega) (by omega),
    grid_node_getD width height nx ny (j + 1) i (by omega) (by omega)]
  simp only [Point.cross, Point.sub_x, Point.sub_y]
  have key : ∀ X : ℝ, X = width / nx * (height / ny) →
      |X| * 0.5 = width / nx * (height / ny) * 0.5 := by
    intro X hX
    rw [hX, abs_of_pos (mul_pos hdx hdy)]
  apply key
  push_cast
  ring

theorem sum_map_const_real {α : Type _} (l : List α) (c : ℝ) :
    (l.map (fun _ => c)).sum = (l.length : ℝ) * c := by
  induction l with
  | nil => simp
  | cons x xs ih =>
    simp only [List.map_cons, List.sum_cons, ih, List.length_cons]
    push_cast
    ring

theorem grid_area_sum (width height : ℝ) (nx ny : ℕ) (hw : 0 < width)
    (hh : 0 < height) (hnx : 1 ≤ nx) (hny : 1 ≤ ny) :
    (((grid_triangles nx ny).map
      (compute_triangle_geometry (grid_nodes width height nx ny))).map
        Triangle.area).sum = width * height := by
  rw [List.map_map, grid_triangles, sum_map_flatMap]
  have hrow : ∀ j ∈ List.range ny,
      (((List.range nx).flatMap (fun i => quad_triangles nx j i)).map
        (Triangle.area ∘ compute_triangle_geometry
          (grid_nodes width height nx ny))).sum =
      (nx : ℝ) * (width / nx * (height / ny)) := by
    intro j hj
    rw [List.mem_range] at hj
    rw [sum_map_flatMap]
    have hcell : ∀ i ∈ List.range nx,
        ((quad_triangles nx j i).map (Triangle.area ∘
          compute_triangle_geometry (grid_nodes width height nx ny))).sum =
        width / nx * (height / ny) := by
      intro i hi
      rw [List.mem_range] at hi
      rw [quad_triangles]
      simp only [List.map_cons, List.map_nil, List.sum_cons, List.sum_nil,
        add_zero, Function.comp]
      rw [area_A width height nx ny j i hw hh hnx hny hj hi,
        area_B width height nx ny j i hw hh hnx hny hj hi]
      ring
    rw [List.map_congr_left hcell, sum_map_const_real, List.length_range]
  rw [List.map_congr_left hrow, sum_map_const_real, List.length_range]
  have hnx0 : (nx : ℝ) ≠ 0 := Nat.cast_ne_zero.mpr (by omega)
  have hny0 : (ny : ℝ) ≠ 0 := Nat.cast_ne_zero.mpr (by omega)
  field_simp
  ring

theorem grid_area_pos (width height : ℝ) (nx ny : ℕ) (hw : 0 < width)
    (hh : 0 < height) (hnx : 1 ≤ nx) (hny : 1 ≤ ny) (t : Triangle)
    (ht : t ∈ (grid_triangles nx ny).map
      (compute_triangle_geometry (grid_nodes width height nx ny))) :
    0 < t.area := by
  have hdx : (0 : ℝ) < width / nx := by
    apply div_pos hw
    exact_mod_cast (by omega : 0 < nx)
  have hdy : (0 : ℝ) < height / ny := by
    apply div_pos hh
    exact_mod_cast (by omega : 0 < ny)
  rw [List.mem_map] at ht
  obtain ⟨t0, ht0, rfl⟩ := ht
  rw [grid_triangles, List.mem_flatMap] at ht0
  obtain ⟨j, hj, ht1⟩ := ht0
  rw [List.mem_flatMap] at ht1
  obtain ⟨i, hi, ht2⟩ := ht1
  rw [List.mem_range] at hj
  rw [List.mem_range] at hi
  rw [quad_triangles, List.mem_cons, List.mem_singleton] at ht2
  rcases ht2 with rfl | rfl
  · rw [area_A width height nx ny j i hw hh hnx hny hj hi]
    exact mul_pos (mul_pos hdx hdy) (by norm_num)
  · rw [area_B width height nx ny j i hw hh hnx hny hj hi]
    exact mul_pos (mul_pos hdx hdy) (by norm_num)

/-- Claim C7: for every `width, height > 0` and `nx, ny ≥ 1`,
`create_rectangular(width, height, nx, ny)` produces exactly
`(nx+1)(ny+1)` nodes and `2·nx·ny` triangles, every triangle area is
strictly positive, the areas sum to exactly `width·height`, every interior
edge (`tri1 ≠ -1`) has exactly two adjacent triangles and every boundary
edge (`tri1 = -1`) exactly one (a triangle is adjacent when the edge's
canonical node pair is one of its three side keys), and there are exactly
`2(nx+ny)` boundary edges. -/
theorem claim_C7 (width height : ℝ) (nx ny : ℕ) (hw : 0 < width)
    (hh : 0 < height) (hnx : 1 ≤ nx) (hny : 1 ≤ ny) :
    (create_rectangular width height nx ny).nodes.length =
      (nx + 1) * (ny + 1) ∧
    (create_rectangular width height nx ny).triangles.length =
      2 * (nx * ny) ∧
    (∀ t ∈ (create_rectangular width height nx ny).triangles, 0 < t.area) ∧
    ((create_rectangular width height nx ny).triangles.map
      Triangle.area).sum = width * height ∧
    (∀ e ∈ (create_rectangular width height nx ny).edges,
      (e.tri1 = -1 →
        adj_count (create_rectangular width height nx ny).triangles
          e.nodes = 1) ∧
      (e.tri1 ≠ -1 →
        adj_count (create_rectangular width height nx ny).triangles
          e.nodes = 2)) ∧
    (create_rectangular width height nx ny).edges.countP
      (fun e => decide (e.tri1 = -1)) = 2 * (nx + ny) := by
  rw [create_rectangular_eq]
  simp only [compute_geometry]
  refine ⟨?_, ?_, ?_, ?_, ?_, ?_⟩
  · exact grid_nodes_length width height nx ny
  · rw [List.length_map]
    exact grid_triangles_length nx ny
  · exact fun t ht => grid_area_pos width height nx ny hw hh hnx hny t ht
  · exact grid_area_sum width height nx ny hw hh hnx hny
  · intro e he'
    rw [List.mem_map] at he'
    obtain ⟨e0, he0, rfl⟩ := he'
    obtain ⟨hiff, hpos⟩ := grid_edge_adj nx ny e0 he0
    have hle2 := kcount_le_two nx ny hnx hny e0.nodes hpos
    constructor
    · intro hb
      have hb0 : e0.tri1 = -1 := hb
      rw [show (compute_edge_geometry (grid_nodes width height nx ny)
          e0).nodes = e0.nodes from rfl, adj_count_map_ctg,
        ← grid_kcount_eq_adj nx ny hnx]
      exact hiff.mp hb0
    · intro hb
      have hb0 : e0.tri1 ≠ -1 := hb
      rw [show (compute_edge_geometry (grid_nodes width height nx ny)
          e0).nodes = e0.nodes from rfl, adj_count_map_ctg,
        ← grid_kcount_eq_adj nx ny hnx]
      have hne1 : kcount (sightings (grid_triangles nx ny)) e0.nodes ≠ 1 :=
        fun hc => hb0 (hiff.mpr hc)
      omega
  · rw [countP_tri1_map_ceg]
    exact grid_boundary_count nx ny hnx hny

/-- Claim C7 instantiated on the unit square with one cell in each
direction. -/
theorem claim_C7_witness :
    (create_rectangular 1 1 1 1).nodes.length = (1 + 1) * (1 + 1) ∧
    (create_rectangular 1 1 1 1).triangles.length = 2 * (1 * 1) ∧
    (∀ t ∈ (create_rectangular 1 1 1 1).triangles, 0 < t.area) ∧
    ((create_rectangular 1 1 1 1).triangles.map Triangle.area).sum =
      1 * 1 ∧
    (∀ e ∈ (create_rectangular 1 1 1 1).edges,
      (e.tri1 = -1 →
        adj_count (create_rectangular 1 1 1 1).triangles e.nodes = 1) ∧
      (e.tri1 ≠ -1 →
        adj_count (create_rectangular 1 1 1 1).triangles e.nodes = 2)) ∧
    (create_rectangular 1 1 1 1).edges.countP
      (fun e => decide (e.tri1 = -1)) = 2 * (1 + 1) :=
  claim_C7 1 1 1 1 (by norm_num) (by norm_num) (by norm_num) (by norm_num)

end SWE
